import Mathlib

/-!
Verification of the in-memory key-value data server (RESP protocol,
master/replica replication, lists, sorted sets, streams, transactions).

The definitions below are shallow embeddings of the Rust source:

* src/src/utils.rs            — RESP writers, propagate_slaves, num_bytes
* src/src/main.rs             — heartbeat loop of the master
* src/src/structs/request.rs  — Request::try_parse
* src/src/structs/stream.rs   — Stream::range, Stream::add_entries
* src/src/structs/runner.rs   — command handlers
* src/src/structs/transaction_runner.rs — MULTI/EXEC machinery
* src/src/structs/skiplist.rs — probabilistic skiplist
* src/src/structs/xread_config.rs — XREAD argument parsing

Machine integers (u64/usize/i64) are modelled as Nat/Int with explicit
wrap-around modulo 2^64 (or 2^63 offset for i64) where overflow can occur.
Rust strings are modelled as Lean String; byte lengths use utf8ByteSize,
which agrees with Rust's str::len.  Wall-clock readings (SystemTime::now)
are passed as explicit parameters.  Randomness (the skiplist level roll)
is passed as an explicit parameter.
-/

namespace Redis

/-- 2^64, the modulus of u64/usize arithmetic. -/
def U64 : Nat := 18446744073709551616

/-- Byte length of a string, as in utils.rs num_bytes (s.as_bytes().len()). -/
def numBytes (s : String) : Nat := s.utf8ByteSize

/-- utils.rs write_simple_string: the bytes written to the client stream. -/
def writeSimpleString (msg : String) : String := "+" ++ msg ++ "\r\n"

/-- utils.rs write_error: note the source prepends the text "-ERR " to every
error message, including WRONGTYPE messages. -/
def writeError (msg : String) : String := "-ERR " ++ msg ++ "\r\n"

/-- utils.rs write_bulk_string. -/
def writeBulkString (msg : String) : String :=
  "$" ++ toString (numBytes msg) ++ "\r\n" ++ msg ++ "\r\n"

/-- utils.rs write_null_bulk_string. -/
def writeNullBulkString : String := "$-1\r\n"

/-- utils.rs write_integer. -/
def writeInteger (v : Int) : String := ":" ++ toString v ++ "\r\n"

/-- utils.rs write_array: array of nullable bulk strings. -/
def writeArray (items : List (Option String)) : String :=
  "*" ++ toString items.length ++ "\r\n" ++
  String.join (items.map fun it =>
    match it with
    | some s => "$" ++ toString (numBytes s) ++ "\r\n" ++ s ++ "\r\n"
    | none => "$-1\r\n")

/-- The byte-exact RESP array frame of a command, per the spec's grammar
(section 4.1): a *N header followed by N bulk strings.  Used to state what
"the full RESP frame of that command" means. -/
def respArrayFrame (args : List String) : String :=
  "*" ++ toString args.length ++ "\r\n" ++
  String.join (args.map fun a =>
    "$" ++ toString (numBytes a) ++ "\r\n" ++ a ++ "\r\n")

/-! ## C1: the replication offset of the master

utils.rs propagate_slaves bumps offset_replica_sync by the byte length of
the message and enqueues the message to every replica's channel.
main.rs spawn_replica_handler_thread (master branch) additionally executes
offset_replica_sync += 37 at the end of every heartbeat iteration, without
enqueueing anything to the replica channels. -/

/-- The master-side replication state observed by C1: the offset counter,
the (ghost) sequence of frames handed to propagate_slaves, and the (ghost)
number of completed heartbeat iterations. -/
structure MasterSync where
  offsetReplicaSync : Nat
  enqueued : List String
  hbTicks : Nat
deriving Repr, DecidableEq

/-- Initial master state: offset 0, nothing enqueued. -/
def MasterSync.init : MasterSync := ⟨0, [], 0⟩

/-- The two events that touch offset_replica_sync on the master. -/
inductive SyncEvent where
  | propagate (msg : String)
  | heartbeatTick
deriving Repr, DecidableEq

/-- One step of the master: propagate_slaves (utils.rs lines 301-313) or the
tail of a heartbeat iteration (main.rs line 121).  usize addition wraps. -/
def MasterSync.step (st : MasterSync) : SyncEvent → MasterSync
  | .propagate msg =>
      { st with
        offsetReplicaSync := (st.offsetReplicaSync + numBytes msg) % U64
        enqueued := st.enqueued ++ [msg] }
  | .heartbeatTick =>
      { st with
        offsetReplicaSync := (st.offsetReplicaSync + 37) % U64
        hbTicks := st.hbTicks + 1 }

/-- Run a sequence of events from a state. -/
def MasterSync.run (st : MasterSync) (evs : List SyncEvent) : MasterSync :=
  evs.foldl MasterSync.step st

/-- Total byte length of a list of frames. -/
def totalBytes (msgs : List String) : Nat := (msgs.map numBytes).sum

/-- runner.rs handle_set: the frame propagated for SET (no expiry option). -/
def setPropagation (key value : String) : String :=
  "*3\r\n$3\r\nSET\r\n$" ++ toString (numBytes key) ++ "\r\n" ++ key ++
  "\r\n$" ++ toString (numBytes value) ++ "\r\n" ++ value ++ "\r\n"

/-- runner.rs handle_del: the frame propagated for DEL. -/
def delPropagation (key : String) : String :=
  "*2\r\n$3\r\nDEL\r\n$" ++ toString (numBytes key) ++ "\r\n" ++ key ++ "\r\n"

/-- runner.rs handle_incr (line 2044): the frame propagated for a direct
INCR, with the correct bulk length $4 for the command name. -/
def incrPropagation (key : String) : String :=
  "*2\r\n$4\r\nINCR\r\n$" ++ toString (numBytes key) ++ "\r\n" ++ key ++ "\r\n"

/-- transaction_runner.rs handle_incr (line 406): the message propagated for
an INCR executed inside a transaction.  Its bulk length header is $3
although the command name INCR is 4 bytes long, so it is not a well-formed
RESP frame. -/
def incrPropagationTx (key : String) : String :=
  "*2\r\n$3\r\nINCR\r\n$" ++ toString (numBytes key) ++ "\r\n" ++ key ++ "\r\n"

/-- runner.rs handle_rpush: the message propagated for RPUSH is the
space-joined text form, not a RESP frame. -/
def rpushPropagation (key : String) (vals : List String) : String :=
  "RPUSH " ++ key ++ " " ++ String.intercalate " " vals

lemma totalBytes_append (xs ys : List String) :
    totalBytes (xs ++ ys) = totalBytes xs + totalBytes ys := by
  simp [totalBytes]

/-- The offset bookkeeping invariant that actually holds on the master. -/
def offsetInv (st : MasterSync) : Prop :=
  st.offsetReplicaSync = (totalBytes st.enqueued + 37 * st.hbTicks) % U64

lemma offsetInv_step (st : MasterSync) (e : SyncEvent) (h : offsetInv st) :
    offsetInv (st.step e) := by
  cases e with
  | propagate msg =>
      simp only [offsetInv, MasterSync.step, totalBytes_append] at *
      rw [h]
      conv_rhs => rw [Nat.add_right_comm]
      rw [← Nat.mod_add_mod]
      simp [totalBytes]
  | heartbeatTick =>
      simp only [offsetInv, MasterSync.step] at *
      rw [h, Nat.mod_add_mod]
      ring_nf

lemma offsetInv_run (evs : List SyncEvent) :
    ∀ st : MasterSync, offsetInv st → offsetInv (st.run evs) := by
  induction evs with
  | nil => intro st h; exact h
  | cons e rest ih =>
      intro st h
      have : st.run (e :: rest) = (st.step e).run rest := rfl
      rw [this]
      exact ih _ (offsetInv_step st e h)

/-- C1 counterexample: after a single heartbeat iteration of the master
(and no propagation at all), offset_replica_sync is 37 while the cumulative
byte length of all frames enqueued to replicas is 0, so the claimed equality
fails. -/
theorem c1_offset_counterexample :
    (MasterSync.init.run [SyncEvent.heartbeatTick]).offsetReplicaSync = 37 ∧
    totalBytes (MasterSync.init.run [SyncEvent.heartbeatTick]).enqueued = 0 ∧
    (37 : Nat) ≠ 0 := by
  refine ⟨?_, ?_, by decide⟩
  · simp [MasterSync.run, MasterSync.step, MasterSync.init, numBytes, U64]
  · simp [MasterSync.run, MasterSync.step, MasterSync.init, totalBytes]

/-- C1 amended: along every event sequence of the master,
offset_replica_sync equals (cumulative byte length of all frames passed to
propagate_slaves) + 37 for every completed heartbeat iteration, modulo 2^64.
The frames enqueued for the write commands SET (without expiry options),
DEL and direct INCR are the full RESP frames of those commands; but an INCR
executed inside a transaction (run by EXEC through the transaction runner)
enqueues "*2\r\n$3\r\nINCR\r\n..." whose bulk length header 3 does not
match the 4-byte command name, so it is NOT the full RESP frame of the
command.  (List, sorted-set and stream write commands enqueue space-joined
textual forms instead; see C6.) -/
theorem c1_offset_accounting :
    (∀ evs : List SyncEvent,
       (MasterSync.init.run evs).offsetReplicaSync =
         (totalBytes (MasterSync.init.run evs).enqueued +
            37 * (MasterSync.init.run evs).hbTicks) % U64) ∧
    (∀ k v : String, setPropagation k v = respArrayFrame ["SET", k, v]) ∧
    (∀ k : String, delPropagation k = respArrayFrame ["DEL", k]) ∧
    (∀ k : String, incrPropagation k = respArrayFrame ["INCR", k]) ∧
    (∀ k : String, incrPropagationTx k ≠ respArrayFrame ["INCR", k]) := by
  refine ⟨fun evs => offsetInv_run evs MasterSync.init (by simp [offsetInv, MasterSync.init, totalBytes, U64]), ?_, ?_, ?_, ?_⟩
  · intro k v
    apply String.ext
    simp [setPropagation, respArrayFrame, String.join, String.data_append, numBytes,
      show toString (3 : Nat) = "3" from rfl, show "SET".utf8ByteSize = 3 from rfl,
      show ("3" : String).data = ['3'] from rfl]
  · intro k
    apply String.ext
    simp [delPropagation, respArrayFrame, String.join, String.data_append, numBytes,
      show toString (2 : Nat) = "2" from rfl, show toString (3 : Nat) = "3" from rfl,
      show "DEL".utf8ByteSize = 3 from rfl,
      show ("2" : String).data = ['2'] from rfl,
      show ("3" : String).data = ['3'] from rfl]
  · intro k
    apply String.ext
    simp [incrPropagation, respArrayFrame, String.join, String.data_append, numBytes,
      show toString (2 : Nat) = "2" from rfl, show toString (4 : Nat) = "4" from rfl,
      show "INCR".utf8ByteSize = 4 from rfl,
      show ("2" : String).data = ['2'] from rfl,
      show ("4" : String).data = ['4'] from rfl]
  · intro k hc
    have hd := congrArg String.data hc
    simp [incrPropagationTx, respArrayFrame, String.join, String.data_append,
      numBytes,
      show toString (2 : Nat) = "2" from rfl,
      show toString (4 : Nat) = "4" from rfl,
      show "INCR".utf8ByteSize = 4 from rfl,
      show ("2" : String).data = ['2'] from rfl,
      show ("4" : String).data = ['4'] from rfl] at hd

/-! ## The keyspace: typed values and the two maps

runner.rs stores values in a HashMap<String, ValueType> (db) and per-key
expiry configs in a HashMap<String, Config> (db_config).  The HashMaps are
modelled as association lists with at most one binding per key; only
get/insert/remove are used by the verified handlers, so iteration order is
irrelevant.  The ValueType variants carry the payloads the handlers in
runner.rs actually use (String(String), List(Vec<String>), Stream(Stream),
ZSet(...)); payloads of variants no verified claim touches are elided. -/

/-- stream.rs Entry: (milisec, sequence_number, key_val), u64 fields. -/
structure StreamEntry where
  milisec : Nat
  sequenceNumber : Nat
  keyVal : List (String × String)
deriving Repr, DecidableEq

/-- stream.rs Stream: an append-only vector of entries. -/
structure RStream where
  entries : List StreamEntry
deriving Repr, DecidableEq

/-- val_type.rs ValueType, with payloads as used by runner.rs. -/
inductive ValueType where
  | string (s : String)
  | list (items : List String)
  | set (items : List String)
  | zset (pairs : List (Int × String))
  | hash (pairs : List (String × String))
  | stream (s : RStream)
  | vectorSet
deriving Repr, DecidableEq

/-- The keyspace map (db). -/
abbrev Db := List (String × ValueType)

/-- structs/config.rs Config: per-key absolute expiry in epoch ms. -/
structure KeyConfig where
  expireAt : Option Nat
  updatedAt : Option Nat
deriving Repr, DecidableEq

/-- Config::default(). -/
def KeyConfig.default : KeyConfig := ⟨none, none⟩

/-- Config::is_expired, with the SystemTime::now reading as a parameter. -/
def KeyConfig.isExpired (c : KeyConfig) (nowMs : Nat) : Bool :=
  match c.expireAt with
  | some e => decide (e ≤ nowMs)
  | none => false

/-- The expiry-config map (db_config). -/
abbrev DbConfig := List (String × KeyConfig)

/-- HashMap::get. -/
def mapGet {α : Type} (m : List (String × α)) (k : String) : Option α :=
  (m.find? (fun p => p.1 = k)).map (·.2)

/-- HashMap::insert (replaces an existing binding). -/
def mapInsert {α : Type} (m : List (String × α)) (k : String) (v : α) :
    List (String × α) :=
  match m with
  | [] => [(k, v)]
  | (k', v') :: rest =>
      if k' = k then (k, v) :: rest else (k', v') :: mapInsert rest k v

/-- HashMap::remove (drops the binding if present). -/
def mapRemove {α : Type} (m : List (String × α)) (k : String) :
    List (String × α) :=
  match m with
  | [] => []
  | (k', v') :: rest =>
      if k' = k then rest else (k', v') :: mapRemove rest k

/-- HashMap::contains_key. -/
def mapContains {α : Type} (m : List (String × α)) (k : String) : Bool :=
  (mapGet m k).isSome

/-! ## C6: LPUSH propagation (runner.rs handle_lpush, lines 935-989) -/

/-- runner.rs handle_lpush: returns (bytes written to the client, new db,
messages passed to propagate_slaves).  is_slave_and_propagation is the flag
computed at the top of the handler; on a master serving a client it is
false.  Note: when the key is absent or holds a non-list, val_vec is
reversed in place BEFORE the propagation string is built, and the
propagated command name is RPUSH. -/
def handleLpush (isSlaveAndPropagation : Bool) (args : List String)
    (db : Db) : String × Db × List String :=
  if args.length < 2 then
    (if isSlaveAndPropagation then "" else writeError "wrong number of arguments for 'LPUSH'",
     db, [])
  else
    let listKey := args.headD ""
    let valVec := args.tail
    match mapGet db listKey with
    | some (ValueType.list redisList) =>
        let newList := valVec.reverse ++ redisList
        let db' := mapInsert db listKey (ValueType.list newList)
        let len := newList.length
        if isSlaveAndPropagation then ("", db', [])
        else (writeInteger len,
              db',
              ["RPUSH " ++ listKey ++ " " ++ String.intercalate " " valVec])
    | _ =>
        let valVec' := valVec.reverse
        let db' := mapInsert db listKey (ValueType.list valVec')
        let len := valVec'.length
        if isSlaveAndPropagation then ("", db', [])
        else (writeInteger len,
              db',
              ["RPUSH " ++ listKey ++ " " ++ String.intercalate " " valVec'])

/-- C6: the code propagates the command name RPUSH (with the value vector
reversed when the key was fresh), not an LPUSH frame with the values in
received order.  Concretely, LPUSH mylist a b on the master with an empty
keyspace stores [b, a], replies :2, and enqueues the text
"RPUSH mylist b a" to the replicas, which is neither an LPUSH command nor
in the received order.  The spec (sections 4.7 and 9) states the propagated
frame MUST be LPUSH with the arguments in received order, and flags the
source's use of RPUSH as incorrect. -/
theorem c6_lpush_propagates_rpush :
    handleLpush false ["mylist", "a", "b"] [] =
      (":2\r\n", [("mylist", ValueType.list ["b", "a"])], ["RPUSH mylist b a"]) ∧
    ¬ ("RPUSH mylist b a" = respArrayFrame ["LPUSH", "mylist", "a", "b"] ∨
       "RPUSH mylist b a" = "LPUSH mylist a b") := by
  constructor
  · rfl
  · decide

/-! ## Integer parsing (Rust FromStr for u64/usize/i64) -/

/-- Digit fold over a character list: some value iff the list is nonempty
and all ASCII digits. -/
def digitsToNatAux : List Char → Nat → Option Nat
  | [], acc => some acc
  | c :: rest, acc =>
      if c.isDigit then digitsToNatAux rest (acc * 10 + (c.toNat - 48))
      else none

/-- Rust u64/usize::from_str: optional plus sign, one or more ASCII digits,
error on overflow past 2^64-1. -/
def parseU64 (s : String) : Option Nat :=
  let l := match s.data with
           | '+' :: rest => rest
           | l => l
  match l with
  | [] => none
  | _ =>
      match digitsToNatAux l 0 with
      | some n => if n < U64 then some n else none
      | none => none

/-- Rust i64::from_str: optional sign, digits, range check. -/
def parseI64 (s : String) : Option Int :=
  let sign : Int := match s.data with
                    | '-' :: _ => -1
                    | _ => 1
  let l := match s.data with
           | '-' :: rest => rest
           | '+' :: rest => rest
           | l => l
  match l with
  | [] => none
  | _ =>
      match digitsToNatAux l 0 with
      | some n =>
          let z : Int := sign * n
          if -(2 ^ 63) ≤ z ∧ z ≤ 2 ^ 63 - 1 then some z else none
      | none => none

/-- Wrapping i64 addition result (release-mode Rust semantics; debug builds
panic on overflow, which no verified claim reaches). -/
def wrapI64 (z : Int) : Int := (z + 2 ^ 63) % 2 ^ 64 - 2 ^ 63

/-! ## Connection-local transaction state (structs/transaction.rs) -/

/-- transaction.rs Transaction. -/
structure Transaction where
  isTxing : Bool
  tasks : List String
  jobDoneAt : Option Nat
  response : List (Option String)
deriving Repr, DecidableEq

/-- Transaction::new(). -/
def Transaction.new : Transaction := ⟨false, [], none, []⟩

/-! ## C3: wrong-kind replies of the list commands (runner.rs) -/

/-- runner.rs handle_llen lines 612-636: on a key holding a non-list value
the handler falls into the else branch and writes the INTEGER 0, not a
WRONGTYPE error. -/
def handleLlen (args : List String) (db : Db) : String :=
  if args.length < 1 then writeError "wrong number of arguments for 'LLEN'"
  else
    match mapGet db (args.headD "") with
    | some (ValueType.list redisList) => writeInteger redisList.length
    | some _ => writeInteger 0
    | none => writeInteger 0

/-- runner.rs handle_lrange lines 796-879 (master, non-propagation path:
every write in this handler is unguarded). -/
def handleLrange (args : List String) (db : Db) : String :=
  if args.length < 3 then writeError "wrong number of arguments for 'LRANGE'"
  else
    let streamKey := args.headD ""
    match mapGet db streamKey with
    | some (ValueType.list redisList) =>
        match parseI64 (args.getD 1 ""), parseI64 (args.getD 2 "") with
        | some s, some e =>
            let listLen : Int := redisList.length
            let start0 : Int := if s < 0 then listLen + s else s
            let start1 : Int := if start0 < 0 then 0 else start0
            let start : Nat := start1.toNat
            let end0 : Int := if e < 0 then listLen + e else e
            let end1 : Int := if end0 < 0 then 0 else end0
            let en : Nat := end1.toNat
            if start ≥ redisList.length ∨ en < start then writeArray []
            else
              let upper := if en + 1 > redisList.length then redisList.length else en + 1
              writeArray (((redisList.drop start).take (upper - start)).map some)
        | _, _ => writeError "invalid arguments for LRANGE: start and end must be integers"
    | some _ => writeError "WRONGTYPE Operation against a key holding the wrong kind of value"
    | none => writeArray []

/-- runner.rs handle_lpop lines 493-610: returns (bytes written, new db,
messages passed to propagate_slaves). -/
def handleLpop (isSlaveAndPropagation : Bool) (args : List String) (db : Db) :
    String × Db × List String :=
  if args.length < 1 then
    (if isSlaveAndPropagation then "" else writeError "wrong number of arguments for 'LPOP'",
     db, [])
  else
    let listKey := args.headD ""
    let countParse : Option (Nat × Bool) :=
      if args.length ≥ 2 then
        match parseU64 (args.getD 1 "") with
        | some v => if v > 0 then some (v, true) else none
        | none => none
      else some (1, false)
    match countParse with
    | none =>
        (if isSlaveAndPropagation then ""
         else writeError "ERR value is not an integer or out of range", db, [])
    | some (count, hasCount) =>
        let propagation :=
          if args.length ≥ 2 then "LPOP " ++ listKey ++ " " ++ toString count
          else "LPOP " ++ listKey
        let _ := hasCount
        match mapGet db listKey with
        | some (ValueType.list redisList) =>
            if redisList ≠ [] then
              let removeCount := min count redisList.length
              let removed := redisList.take removeCount
              let rest := redisList.drop removeCount
              let db1 := if rest = [] then mapRemove db listKey
                         else mapInsert db listKey (ValueType.list rest)
              if isSlaveAndPropagation then ("", db1, [])
              else
                let out :=
                  if count = 1 then
                    if removed ≠ [] then writeBulkString (removed.headD "")
                    else writeNullBulkString
                  else writeArray (removed.map some)
                (out, db1, [propagation])
            else
              if isSlaveAndPropagation then ("", db, [])
              else
                let out := if count = 1 then writeNullBulkString else writeArray []
                (out, db, [propagation])
        | some _ =>
            (if isSlaveAndPropagation then ""
             else writeError "WRONGTYPE Operation against a key holding the wrong kind of value",
             db, [])
        | none =>
            if isSlaveAndPropagation then ("", db, [])
            else
              let out := if count = 1 then writeNullBulkString else writeArray []
              (out, db, [propagation])

/-- One iteration of the BLPOP polling loop (runner.rs lines 449-490):
inl means the handler returned, inr means it sleeps 10 ms and polls again
with the possibly mutated db.  (When is_slave_and_propagation holds, a
popped element is dropped without returning, as in the source.) -/
def blpopIter (isSlaveAndPropagation : Bool) (listKey : String) (db : Db) :
    Sum (String × Db × List String) Db :=
  match mapGet db listKey with
  | some (ValueType.list redisList) =>
      match redisList with
      | [] => Sum.inr db
      | popped :: rest =>
          let db1 := mapInsert db listKey (ValueType.list rest)
          if isSlaveAndPropagation then Sum.inr db1
          else Sum.inl (writeArray [some listKey, some popped], db1,
                        ["LPOP " ++ listKey])
  | some _ =>
      Sum.inl
        (if isSlaveAndPropagation then ""
         else writeError "WRONGTYPE Operation against a key holding the wrong kind of value",
         db, [])
  | none => Sum.inr db

/-- The BLPOP polling loop with fuel: each unit of fuel is one 10 ms poll;
exhausted fuel models the deadline firing (reply *-1).  (With timeout 0 the
source polls forever; fuel only bounds the observed iterations.) -/
def blpopLoop (isSlaveAndPropagation : Bool) (listKey : String) (db : Db) :
    Nat → String × Db × List String
  | 0 => ("*-1\r\n", db, [])
  | fuel + 1 =>
      match blpopIter isSlaveAndPropagation listKey db with
      | Sum.inl r => r
      | Sum.inr db' => blpopLoop isSlaveAndPropagation listKey db' fuel

/-- runner.rs handle_blpop lines 413-491.  timeoutOk abstracts the f64
parse of args[1] (Ok(t) with t >= 0.0); floating point is outside the
embedding, and no verified claim depends on the timeout value. -/
def handleBlpop (isSlaveAndPropagation timeoutOk : Bool) (args : List String)
    (db : Db) (fuel : Nat) : String × Db × List String :=
  if args.length < 2 then
    (if isSlaveAndPropagation then "" else writeError "wrong number of arguments for 'BLPOP'",
     db, [])
  else if ¬ timeoutOk then
    (writeError "invalid arguments for BLPOP: timeout must be a non-negative number", db, [])
  else blpopLoop isSlaveAndPropagation (args.headD "") db fuel

/-- C3 counterexample: LLEN on a key holding a string replies :0, and even
the handlers that do reject the wrong kind write the error through
write_error, which prepends "-ERR ", so no handler writes the exact bytes
the claim states. -/
theorem c3_wrongtype_counterexample :
    handleLlen ["k"] [("k", ValueType.string "v")] = ":0\r\n" ∧
    ":0\r\n" ≠ "-WRONGTYPE Operation against a key holding the wrong kind of value\r\n" ∧
    handleLrange ["k", "0", "-1"] [("k", ValueType.string "v")] =
      "-ERR WRONGTYPE Operation against a key holding the wrong kind of value\r\n" ∧
    "-ERR WRONGTYPE Operation against a key holding the wrong kind of value\r\n" ≠
      "-WRONGTYPE Operation against a key holding the wrong kind of value\r\n" := by
  refine ⟨by decide, by decide, by decide, by decide⟩

/-- C3 amended: against an existing key holding a non-list value, LRANGE,
LPOP and BLPOP write exactly
"-ERR WRONGTYPE Operation against a key holding the wrong kind of value"
followed by CRLF (write_error prefixes every message with "-ERR "), and
leave the keyspace untouched without propagating; LLEN instead replies the
integer 0. -/
theorem c3_wrongtype_amended (db : Db) (k s e t : String) (v : ValueType)
    (fuel : Nat) (hget : mapGet db k = some v)
    (hnl : ∀ items, v ≠ ValueType.list items) :
    handleLrange [k, s, e] db =
      "-ERR WRONGTYPE Operation against a key holding the wrong kind of value\r\n" ∧
    handleLpop false [k] db =
      ("-ERR WRONGTYPE Operation against a key holding the wrong kind of value\r\n", db, []) ∧
    handleBlpop false true [k, t] db (fuel + 1) =
      ("-ERR WRONGTYPE Operation against a key holding the wrong kind of value\r\n", db, []) ∧
    handleLlen [k] db = ":0\r\n" := by
  have hk : (([k, s, e] : List String)).headD "" = k := rfl
  refine ⟨?_, ?_, ?_, ?_⟩
  · unfold handleLrange
    simp only [List.length_cons, List.length_nil, List.headD]
    rw [if_neg (by omega)]
    rw [hget]
    cases v with
    | list items => exact absurd rfl (hnl items)
    | string s' => rfl
    | set _ => rfl
    | zset _ => rfl
    | hash _ => rfl
    | stream _ => rfl
    | vectorSet => rfl
  · unfold handleLpop
    rw [if_neg (by simp)]
    simp only [show (([k] : List String)).headD "" = k from rfl,
      show (([k] : List String)).length = 1 from rfl]
    rw [if_neg (by omega)]
    rw [hget]
    cases v with
    | list items => exact absurd rfl (hnl items)
    | string s' => rfl
    | set _ => rfl
    | zset _ => rfl
    | hash _ => rfl
    | stream _ => rfl
    | vectorSet => rfl
  · unfold handleBlpop
    rw [if_neg (by simp), if_neg (by simp)]
    simp only [show (([k, t] : List String)).headD "" = k from rfl]
    unfold blpopLoop blpopIter
    rw [hget]
    cases v with
    | list items => exact absurd rfl (hnl items)
    | string s' => rfl
    | set _ => rfl
    | zset _ => rfl
    | hash _ => rfl
    | stream _ => rfl
    | vectorSet => rfl
  · unfold handleLlen
    rw [if_neg (by simp)]
    rw [show (([k] : List String)).headD "" = k from rfl, hget]
    cases v with
    | list items => exact absurd rfl (hnl items)
    | string s' => rfl
    | set _ => rfl
    | zset _ => rfl
    | hash _ => rfl
    | stream _ => rfl
    | vectorSet => rfl

/-- C3 witness: the amended theorem applied to a concrete keyspace holding
a stream value under the key. -/
theorem c3_wrongtype_amended_witness :
    handleLrange ["k", "0", "1"] [("k", ValueType.stream ⟨[]⟩)] =
      "-ERR WRONGTYPE Operation against a key holding the wrong kind of value\r\n" ∧
    handleLpop false ["k"] [("k", ValueType.stream ⟨[]⟩)] =
      ("-ERR WRONGTYPE Operation against a key holding the wrong kind of value\r\n",
       [("k", ValueType.stream ⟨[]⟩)], []) ∧
    handleBlpop false true ["k", "0"] [("k", ValueType.stream ⟨[]⟩)] 1 =
      ("-ERR WRONGTYPE Operation against a key holding the wrong kind of value\r\n",
       [("k", ValueType.stream ⟨[]⟩)], []) ∧
    handleLlen ["k"] [("k", ValueType.stream ⟨[]⟩)] = ":0\r\n" :=
  c3_wrongtype_amended [("k", ValueType.stream ⟨[]⟩)] "k" "0" "1" "0"
    (ValueType.stream ⟨[]⟩) 0 (by decide) (fun items h => by cases h)

/-! ## C5: INCR (runner.rs handle_incr, lines 1969-2047) -/

/-- runner.rs handle_incr: (bytes written to the client, new transaction
state, new db, new db_config, messages passed to propagate_slaves).
The SystemTime::now reading used by is_expired is the nowMs parameter.
While a transaction is open the command is queued and +QUEUED is written.
Note the absent-key test is a disjunction: a key missing from EITHER map is
(re)initialized to the string "1"; and the propagate_slaves call at the end
of the success paths is unconditional in the source. -/
def handleIncr (isSlaveAndPropagation : Bool) (args : List String)
    (tx : Transaction) (db : Db) (cfg : DbConfig) (nowMs : Nat) :
    String × Transaction × Db × DbConfig × List String :=
  if args.isEmpty then
    (if isSlaveAndPropagation then "" else writeError "wrong number of arguments for 'INCR'",
     tx, db, cfg, [])
  else if tx.isTxing then
    (writeSimpleString "QUEUED",
     { tx with tasks := tx.tasks ++ ["incr " ++ args.headD ""] }, db, cfg, [])
  else
    let key := args.headD ""
    if ¬ mapContains cfg key ∨ ¬ mapContains db key then
      let db' := mapInsert db key (ValueType.string "1")
      let cfg' := mapInsert cfg key KeyConfig.default
      ((if isSlaveAndPropagation then "" else writeInteger 1), tx, db', cfg',
       [incrPropagation key])
    else
      match mapGet cfg key with
      | some c =>
          if c.isExpired nowMs then
            (writeError ("key " ++ key ++ " is expired"),
             tx, mapRemove db key, mapRemove cfg key, [])
          else
            match mapGet db key with
            | some (ValueType.string s) =>
                match parseI64 s with
                | some val =>
                    let newValue := wrapI64 (val + 1)
                    ((if isSlaveAndPropagation then "" else writeInteger newValue),
                     tx, mapInsert db key (ValueType.string (toString newValue)), cfg,
                     [incrPropagation key])
                | none =>
                    (writeError "value is not an integer or out of range", tx, db, cfg, [])
            | some _ =>
                (writeError "value is not an integer or out of range", tx, db, cfg, [])
            | none =>
                -- unreachable: both contains_key checks above succeeded
                -- (map.get(key).unwrap() in the source)
                ("", tx, db, cfg, [])
      | none =>
          -- unreachable for the same reason
          ("", tx, db, cfg, [])

lemma mapGet_cons {α : Type} (k' : String) (v' : α) (t : List (String × α))
    (k : String) :
    mapGet ((k', v') :: t) k = if k' = k then some v' else mapGet t k := by
  by_cases h : k' = k <;> simp [mapGet, List.find?, h]

lemma mapGet_insert_self {α : Type} (m : List (String × α)) (k : String)
    (v : α) : mapGet (mapInsert m k v) k = some v := by
  induction m with
  | nil => simp [mapInsert, mapGet_cons]
  | cons p rest ih =>
      obtain ⟨k', v'⟩ := p
      by_cases h : k' = k
      · simp [mapInsert, h, mapGet_cons]
      · simp [mapInsert, h, mapGet_cons, ih]

lemma mapGet_eq_none_of_not_mem {α : Type} (m : List (String × α))
    (k : String) (h : k ∉ m.map Prod.fst) : mapGet m k = none := by
  induction m with
  | nil => rfl
  | cons p rest ih =>
      obtain ⟨k', v'⟩ := p
      simp only [List.map_cons, List.mem_cons] at h
      push_neg at h
      rw [mapGet_cons, if_neg (fun he => h.1 he.symm)]
      exact ih h.2

lemma mapGet_remove_self {α : Type} (m : List (String × α)) (k : String)
    (h : (m.map Prod.fst).Nodup) : mapGet (mapRemove m k) k = none := by
  induction m with
  | nil => rfl
  | cons p rest ih =>
      obtain ⟨k', v'⟩ := p
      simp only [List.map_cons, List.nodup_cons] at h
      by_cases hk : k' = k
      · subst hk
        simp only [mapRemove, if_pos rfl]
        exact mapGet_eq_none_of_not_mem rest k' h.1
      · simp only [mapRemove, if_neg hk]
        rw [mapGet_cons, if_neg hk]
        exact ih h.2

/-- C5 counterexample: a key created by RPUSH has no db_config entry, so
INCR's absent-key test (a disjunction over the two maps) treats it as
absent, overwrites the list with the string "1" and replies :1 instead of
an error. -/
theorem c5_incr_counterexample :
    handleIncr false ["k"] Transaction.new [("k", ValueType.list ["a"])] [] 0 =
      (":1\r\n", Transaction.new, [("k", ValueType.string "1")],
       [("k", KeyConfig.default)], ["*2\r\n$4\r\nINCR\r\n$1\r\nk\r\n"]) ∧
    (":1\r\n" : String) ≠ "-ERR value is not an integer or out of range\r\n" ∧
    ValueType.string "1" ≠ ValueType.list ["a"] := by
  refine ⟨rfl, by decide, by decide⟩

/-- C5 amended: INCR on a key absent from both maps initializes it to "1"
and replies :1; INCR on a non-string value that HAS a db_config entry (and
is not expired) replies the error "value is not an integer or out of range"
and leaves both maps unchanged; INCR on a non-string value WITHOUT a
db_config entry instead overwrites it with "1" and replies :1; INCR on an
expired key removes it from both maps and replies the error
"key <k> is expired". -/
theorem c5_incr_amended (db : Db) (cfg : DbConfig) (k : String) (nowMs : Nat) :
    (mapGet db k = none ∧ mapGet cfg k = none →
       handleIncr false [k] Transaction.new db cfg nowMs =
         (":1\r\n", Transaction.new, mapInsert db k (ValueType.string "1"),
          mapInsert cfg k KeyConfig.default, [incrPropagation k]) ∧
       mapGet (mapInsert db k (ValueType.string "1")) k =
         some (ValueType.string "1")) ∧
    (∀ v c, mapGet db k = some v → (∀ s, v ≠ ValueType.string s) →
       mapGet cfg k = some c → c.isExpired nowMs = false →
       handleIncr false [k] Transaction.new db cfg nowMs =
         ("-ERR value is not an integer or out of range\r\n",
          Transaction.new, db, cfg, [])) ∧
    (∀ v, mapGet db k = some v → mapGet cfg k = none →
       handleIncr false [k] Transaction.new db cfg nowMs =
         (":1\r\n", Transaction.new, mapInsert db k (ValueType.string "1"),
          mapInsert cfg k KeyConfig.default, [incrPropagation k])) ∧
    (∀ c, mapGet db k ≠ none → mapGet cfg k = some c →
       c.isExpired nowMs = true →
       (db.map Prod.fst).Nodup → (cfg.map Prod.fst).Nodup →
       handleIncr false [k] Transaction.new db cfg nowMs =
         (writeError ("key " ++ k ++ " is expired"), Transaction.new,
          mapRemove db k, mapRemove cfg k, []) ∧
       mapGet (mapRemove db k) k = none ∧
       mapGet (mapRemove cfg k) k = none) := by
  have hhead : (([k] : List String)).headD "" = k := rfl
  have hemp : (([k] : List String)).isEmpty = false := rfl
  refine ⟨?_, ?_, ?_, ?_⟩
  · rintro ⟨hdb, hcfg⟩
    constructor
    · unfold handleIncr
      rw [hemp]
      simp only [Bool.false_eq_true, if_false, hhead]
      rw [if_neg (by decide)]
      rw [if_pos]
      · rfl
      · left
        simp [mapContains, hcfg]
    · exact mapGet_insert_self db k _
  · intro v c hdb hns hcfg hexp
    unfold handleIncr
    rw [hemp]
    simp only [Bool.false_eq_true, if_false, hhead]
    rw [if_neg (by decide)]
    rw [if_neg, hcfg]
    · simp only [hexp, Bool.false_eq_true, if_false, hdb]
      cases v with
      | string s => exact absurd rfl (hns s)
      | list _ => rfl
      | set _ => rfl
      | zset _ => rfl
      | hash _ => rfl
      | stream _ => rfl
      | vectorSet => rfl
    · push_neg
      constructor <;> simp [mapContains, hdb, hcfg]
  · intro v hdb hcfg
    unfold handleIncr
    rw [hemp]
    simp only [Bool.false_eq_true, if_false, hhead]
    rw [if_neg (by decide)]
    rw [if_pos]
    · rfl
    · left
      simp [mapContains, hcfg]
  · intro c hdb hcfg hexp hnd hnc
    refine ⟨?_, mapGet_remove_self db k hnd, mapGet_remove_self cfg k hnc⟩
    unfold handleIncr
    rw [hemp]
    simp only [Bool.false_eq_true, if_false, hhead]
    rw [if_neg (by decide)]
    rw [if_neg, hcfg]
    · simp only [hexp, if_true]
    · push_neg
      constructor <;> simp [mapContains, hcfg]
      exact Option.isSome_iff_ne_none.mpr hdb

/-- C5 witness: the amended theorem at concrete inputs (a fresh key, and an
expired key holding a list). -/
theorem c5_incr_amended_witness :
    handleIncr false ["k"] Transaction.new [] [] 0 =
      (":1\r\n", Transaction.new, [("k", ValueType.string "1")],
       [("k", KeyConfig.default)], [incrPropagation "k"]) ∧
    handleIncr false ["k"] Transaction.new [("k", ValueType.list [])]
        [("k", ⟨some 5, none⟩)] 10 =
      ("-ERR key k is expired\r\n", Transaction.new, [], [], []) := by
  constructor
  · exact ((c5_incr_amended [] [] "k" 0).1 ⟨rfl, rfl⟩).1
  · exact ((c5_incr_amended [("k", ValueType.list [])] [("k", ⟨some 5, none⟩)]
      "k" 10).2.2.2 ⟨some 5, none⟩ (by decide) (by decide) (by decide)
      (by decide) (by decide)).1

/-! ## C4: stream identifier monotonicity (stream.rs add_entries, lines
43-149).  The Stream used by runner.rs is structs/stream.rs; the partial
duplicate in structs/entries.rs is dead code. -/

/-- enums StreamResult (declared in enums/add_stream_entries_result.rs,
used as StreamResult::Some / StreamResult::Err). -/
inductive StreamResult where
  | ok (id : String)
  | err (msg : String)
deriving Repr, DecidableEq

/-- Rust str::split('-') collected to a vector, on the character level
(structurally recursive so that concrete streams evaluate). -/
def splitOnChar (c : Char) : List Char → List (List Char)
  | [] => [[]]
  | x :: rest =>
      if x = c then [] :: splitOnChar c rest
      else
        match splitOnChar c rest with
        | h :: t => (x :: h) :: t
        | [] => [[x]]

/-- id.split('-').collect::<Vec<_>>() as a list of strings. -/
def splitDash (s : String) : List String :=
  (splitOnChar '-' s.data).map fun l => String.mk l

/-- stream.rs Stream::add_entries.  The SystemTime::now reading used by the
"*" branch is the nowMs parameter; u64 increments wrap modulo 2^64
(release-mode semantics; debug builds panic on overflow).  The source's
mutable curr_seq variable is compiled into branch duplication. -/
def addEntries (nowMs : Nat) (st : RStream) (id : String)
    (keyVal : List (String × String)) : StreamResult × RStream :=
  if id = "*" then
    match st.entries.getLast? with
    | none =>
        (StreamResult.ok (toString nowMs ++ "-" ++ toString 0),
         ⟨st.entries ++ [⟨nowMs, 0, keyVal⟩]⟩)
    | some lastEntry =>
        if lastEntry.milisec = nowMs then
          (StreamResult.ok (toString nowMs ++ "-" ++
             toString ((lastEntry.sequenceNumber + 1) % U64)),
           ⟨st.entries ++ [⟨nowMs, (lastEntry.sequenceNumber + 1) % U64, keyVal⟩]⟩)
        else
          (StreamResult.ok (toString nowMs ++ "-" ++ toString 0),
           ⟨st.entries ++ [⟨nowMs, 0, keyVal⟩]⟩)
  else if (splitDash id).length ≠ 2 then
    (StreamResult.err "The ID specified in XADD is not valid", st)
  else if (splitDash id).getD 1 "" = "*" then
    match parseU64 ((splitDash id).getD 0 "") with
    | none => (StreamResult.err "The ID specified in XADD is not valid", st)
    | some currMs =>
        match st.entries.getLast? with
        | none =>
            (StreamResult.ok (toString currMs ++ "-" ++ toString 1),
             ⟨st.entries ++ [⟨currMs, 1, keyVal⟩]⟩)
        | some lastEntry =>
            if currMs < lastEntry.milisec then
              (StreamResult.err
                 "The ID specified in XADD is equal or smaller than the target stream top item",
               st)
            else if currMs = lastEntry.milisec then
              (StreamResult.ok (toString currMs ++ "-" ++
                 toString ((1 + lastEntry.sequenceNumber) % U64)),
               ⟨st.entries ++ [⟨currMs, (1 + lastEntry.sequenceNumber) % U64, keyVal⟩]⟩)
            else
              (StreamResult.ok (toString currMs ++ "-" ++ toString 0),
               ⟨st.entries ++ [⟨currMs, 0, keyVal⟩]⟩)
  else
    match parseU64 ((splitDash id).getD 0 "") with
    | none => (StreamResult.err "The ID specified in XADD is not valid", st)
    | some currMs =>
        match parseU64 ((splitDash id).getD 1 "") with
        | none => (StreamResult.err "The ID specified in XADD is not valid", st)
        | some currSeq =>
            if currMs = 0 ∧ currSeq = 0 then
              (StreamResult.err "The ID specified in XADD must be greater than 0-0", st)
            else if currMs = 0 ∧ currSeq < 1 then
              (StreamResult.err "The ID specified in XADD must be greater than 0-0", st)
            else
              match st.entries.getLast? with
              | none => (StreamResult.ok id, ⟨st.entries ++ [⟨currMs, currSeq, keyVal⟩]⟩)
              | some lastEntry =>
                  if currMs < lastEntry.milisec then
                    (StreamResult.err
                       "The ID specified in XADD is equal or smaller than the target stream top item",
                     st)
                  else if currMs = lastEntry.milisec ∧ currSeq ≤ lastEntry.sequenceNumber then
                    (StreamResult.err
                       "The ID specified in XADD is equal or smaller than the target stream top item",
                     st)
                  else (StreamResult.ok id, ⟨st.entries ++ [⟨currMs, currSeq, keyVal⟩]⟩)

/-- Strict (ms, seq) order between adjacent stream entries. -/
def idLt (a b : StreamEntry) : Prop :=
  a.milisec < b.milisec ∨ (a.milisec = b.milisec ∧ a.sequenceNumber < b.sequenceNumber)

instance (a b : StreamEntry) : Decidable (idLt a b) :=
  inferInstanceAs (Decidable (a.milisec < b.milisec ∨
    (a.milisec = b.milisec ∧ a.sequenceNumber < b.sequenceNumber)))

/-- The invariant: adjacent entries strictly increase in (ms, seq). -/
def entriesSorted : List StreamEntry → Prop
  | [] => True
  | [_] => True
  | a :: b :: rest => idLt a b ∧ entriesSorted (b :: rest)

instance instDecEntriesSorted : (l : List StreamEntry) → Decidable (entriesSorted l)
  | [] => Decidable.isTrue trivial
  | [_] => Decidable.isTrue trivial
  | a :: b :: rest =>
      have : Decidable (entriesSorted (b :: rest)) := instDecEntriesSorted (b :: rest)
      inferInstanceAs (Decidable (idLt a b ∧ entriesSorted (b :: rest)))

lemma entriesSorted_iff (l : List StreamEntry) :
    entriesSorted l ↔ List.Chain' idLt l := by
  induction l with
  | nil => simp [entriesSorted]
  | cons a t ih =>
      cases t with
      | nil => simp [entriesSorted]
      | cons b rest =>
          rw [show entriesSorted (a :: b :: rest) =
              (idLt a b ∧ entriesSorted (b :: rest)) from rfl,
            List.chain'_cons]
          exact and_congr Iff.rfl ih

lemma entriesSorted_append_singleton (l : List StreamEntry) (y : StreamEntry)
    (hl : entriesSorted l) (hy : ∀ last, l.getLast? = some last → idLt last y) :
    entriesSorted (l ++ [y]) := by
  rw [entriesSorted_iff] at hl ⊢
  rw [List.chain'_append]
  refine ⟨hl, List.chain'_singleton y, ?_⟩
  intro x hx z hz
  simp only [List.head?_cons, Option.mem_def, Option.some.injEq] at hz
  subst hz
  exact hy x hx

/-- C4 counterexample: with id "*" the source performs no monotonicity
check against the last entry, so a wall clock that moved backwards (reading
3 ms after an entry at 5 ms) appends an out-of-order entry and reports
success. -/
theorem c4_monotonic_counterexample :
    addEntries 3 ⟨[⟨5, 0, []⟩]⟩ "*" [] =
      (StreamResult.ok "3-0", ⟨[⟨5, 0, []⟩, ⟨3, 0, []⟩]⟩) ∧
    ¬ entriesSorted [⟨5, 0, []⟩, ⟨3, 0, []⟩] := by
  refine ⟨by decide, by decide⟩

/-- C4 amended: successful add_entries calls preserve the strictly
increasing (ms, seq) invariant, and rejected calls leave the stream
unchanged, PROVIDED the auto-sequence increment does not wrap u64 and, for
id "*", the wall-clock reading is at least the last entry's ms.  (With id
"*" the source appends without any validation, so a backwards wall clock
breaks the invariant, as the counterexample shows.) -/
theorem c4_monotonic_amended (st : RStream) (id : String)
    (kv : List (String × String)) (nowMs : Nat)
    (hsorted : entriesSorted st.entries)
    (hlast : ∀ last, st.entries.getLast? = some last →
       last.sequenceNumber + 1 < U64 ∧ (id = "*" → last.milisec ≤ nowMs)) :
    (∀ newId st', addEntries nowMs st id kv = (StreamResult.ok newId, st') →
       entriesSorted st'.entries) ∧
    (∀ msg st', addEntries nowMs st id kv = (StreamResult.err msg, st') →
       st' = st) := by
  constructor
  · intro newId st' heq
    unfold addEntries at heq
    split at heq
    · -- id = "*"
      next hstar =>
      split at heq
      · -- empty stream
        next hgl =>
        injection heq with _ hsnd
        subst hsnd
        have hnil : st.entries = [] := List.getLast?_eq_none_iff.mp hgl
        simp [hnil, entriesSorted]
      · next lastEntry hgl =>
        obtain ⟨h1, h2⟩ := hlast lastEntry hgl
        split at heq
        · next hms =>
          injection heq with _ hsnd
          subst hsnd
          apply entriesSorted_append_singleton _ _ hsorted
          intro last hl
          rw [hgl] at hl
          cases hl
          rw [show ((lastEntry.sequenceNumber + 1) % U64) = lastEntry.sequenceNumber + 1
            from Nat.mod_eq_of_lt h1]
          exact Or.inr ⟨hms, Nat.lt_succ_self _⟩
        · next hms =>
          injection heq with _ hsnd
          subst hsnd
          apply entriesSorted_append_singleton _ _ hsorted
          intro last hl
          rw [hgl] at hl
          cases hl
          exact Or.inl (lt_of_le_of_ne (h2 hstar) hms)
    · next hstar =>
      split at heq
      · next hlen =>
        injection heq with h1 _
        exact StreamResult.noConfusion h1
      · next hlen =>
        split at heq
        · -- "<ms>-*"
          next hseqstar =>
          split at heq
          · next hp =>
            injection heq with h1 _
            exact StreamResult.noConfusion h1
          · next currMs hp =>
            split at heq
            · next hgl =>
              injection heq with _ hsnd
              subst hsnd
              have hnil : st.entries = [] := List.getLast?_eq_none_iff.mp hgl
              simp [hnil, entriesSorted]
            · next lastEntry hgl =>
              obtain ⟨h1, -⟩ := hlast lastEntry hgl
              split at heq
              · next hlt =>
                injection heq with h1 _
                exact StreamResult.noConfusion h1
              · next hlt =>
                split at heq
                · next hms =>
                  injection heq with _ hsnd
                  subst hsnd
                  apply entriesSorted_append_singleton _ _ hsorted
                  intro last hl
                  rw [hgl] at hl
                  cases hl
                  rw [show ((1 + lastEntry.sequenceNumber) % U64) =
                      1 + lastEntry.sequenceNumber
                    from Nat.mod_eq_of_lt (by omega)]
                  exact Or.inr ⟨hms.symm,
                    by show lastEntry.sequenceNumber < 1 + lastEntry.sequenceNumber; omega⟩
                · next hms =>
                  injection heq with _ hsnd
                  subst hsnd
                  apply entriesSorted_append_singleton _ _ hsorted
                  intro last hl
                  rw [hgl] at hl
                  cases hl
                  exact Or.inl (lt_of_le_of_ne (Nat.le_of_not_lt hlt)
                    (fun h => hms h.symm))
        · -- explicit "<ms>-<seq>"
          next hseqstar =>
          split at heq
          · next hp0 =>
            injection heq with h1 _
            exact StreamResult.noConfusion h1
          · next currMs hp0 =>
            split at heq
            · next hp1 =>
              injection heq with h1 _
              exact StreamResult.noConfusion h1
            · next currSeq hp1 =>
              split at heq
              · next hz =>
                injection heq with h1 _
                exact StreamResult.noConfusion h1
              · next hz =>
                split at heq
                · next hz1 =>
                  injection heq with h1 _
                  exact StreamResult.noConfusion h1
                · next hz1 =>
                  split at heq
                  · next hgl =>
                    injection heq with _ hsnd
                    subst hsnd
                    have hnil : st.entries = [] := List.getLast?_eq_none_iff.mp hgl
                    simp [hnil, entriesSorted]
                  · next lastEntry hgl =>
                    split at heq
                    · next hlt =>
                      injection heq with h1 _
                      exact StreamResult.noConfusion h1
                    · next hlt =>
                      split at heq
                      · next hle =>
                        injection heq with h1 _
                        exact StreamResult.noConfusion h1
                      · next hle =>
                        injection heq with _ hsnd
                        subst hsnd
                        apply entriesSorted_append_singleton _ _ hsorted
                        intro last hl
                        rw [hgl] at hl
                        cases hl
                        by_cases hms : currMs = lastEntry.milisec
                        · refine Or.inr ⟨hms.symm, ?_⟩
                          rcases Nat.lt_or_ge lastEntry.sequenceNumber currSeq with h | h
                          · exact h
                          · exact absurd ⟨hms, h⟩ hle
                        · exact Or.inl (lt_of_le_of_ne (Nat.le_of_not_lt hlt)
                            (fun h => hms h.symm))
  · intro msg st' heq
    unfold addEntries at heq
    repeat' split at heq
    all_goals injection heq with h1 h2
    all_goals first
      | exact h2.symm
      | exact StreamResult.noConfusion h1

/-- C4 witness: the amended theorem applied to an explicit XADD 1-1 on a
stream already holding the entry 1-0, and to the error case XADD 0-5 on
the same stream (which leaves it unchanged). -/
theorem c4_monotonic_amended_witness :
    entriesSorted ((addEntries 0 ⟨[⟨1, 0, []⟩]⟩ "1-1" []).2.entries) ∧
    (addEntries 0 ⟨[⟨1, 0, []⟩]⟩ "0-5" []).2 = (⟨[⟨1, 0, []⟩]⟩ : RStream) := by
  constructor
  · exact (c4_monotonic_amended ⟨[⟨1, 0, []⟩]⟩ "1-1" [] 0 (by decide)
      (fun last h => by
        cases h
        exact ⟨by decide, fun hc => absurd hc (by decide)⟩)).1 "1-1"
      (addEntries 0 ⟨[⟨1, 0, []⟩]⟩ "1-1" []).2 rfl
  · exact (c4_monotonic_amended ⟨[⟨1, 0, []⟩]⟩ "0-5" [] 0 (by decide)
      (fun last h => by
        cases h
        exact ⟨by decide, fun hc => absurd hc (by decide)⟩)).2
      "The ID specified in XADD is equal or smaller than the target stream top item"
      (addEntries 0 ⟨[⟨1, 0, []⟩]⟩ "0-5" []).2 rfl

/-! ## C7: Stream::range (stream.rs lines 20-32)

range binary-searches for start and end with
binary_search_by(|e| (e.milisec, e.sequence_number).cmp(&target)),
takes Ok or Err indices alike (unwrap_or_else(|x| x)), and returns the
slice entries[start_idx ..= end_idx].  Rust's slice indexing panics when
end_idx >= len (or start_idx > end_idx + 1); the panic is modelled as
none. -/

/-- Strict lexicographic order on (ms, seq) pairs. -/
def pLt (a b : Nat × Nat) : Prop :=
  a.1 < b.1 ∨ (a.1 = b.1 ∧ a.2 < b.2)

instance (a b : Nat × Nat) : Decidable (pLt a b) :=
  inferInstanceAs (Decidable (a.1 < b.1 ∨ (a.1 = b.1 ∧ a.2 < b.2)))

/-- Reflexive closure of pLt. -/
def pLe (a b : Nat × Nat) : Prop := pLt a b ∨ a = b

instance (a b : Nat × Nat) : Decidable (pLe a b) :=
  inferInstanceAs (Decidable (pLt a b ∨ a = b))

/-- Rust (u64, u64)::cmp: lexicographic Ordering. -/
def pairOrd (a b : Nat × Nat) : Ordering :=
  if a.1 < b.1 then Ordering.lt
  else if b.1 < a.1 then Ordering.gt
  else if a.2 < b.2 then Ordering.lt
  else if b.2 < a.2 then Ordering.gt
  else Ordering.eq

/-- The (ms, seq) key of an entry. -/
def entryKey (e : StreamEntry) : Nat × Nat := (e.milisec, e.sequenceNumber)

lemma pairOrd_eq_lt_iff (a b : Nat × Nat) : pairOrd a b = Ordering.lt ↔ pLt a b := by
  obtain ⟨x1, x2⟩ := a
  obtain ⟨y1, y2⟩ := b
  simp only [pairOrd, pLt]
  split_ifs <;> simp_all <;> omega

lemma pairOrd_eq_gt_iff (a b : Nat × Nat) : pairOrd a b = Ordering.gt ↔ pLt b a := by
  obtain ⟨x1, x2⟩ := a
  obtain ⟨y1, y2⟩ := b
  simp only [pairOrd, pLt]
  split_ifs <;> simp_all <;> omega

lemma pairOrd_eq_eq_iff (a b : Nat × Nat) : pairOrd a b = Ordering.eq ↔ a = b := by
  obtain ⟨x1, x2⟩ := a
  obtain ⟨y1, y2⟩ := b
  simp only [pairOrd, Prod.mk.injEq]
  split_ifs <;> simp_all <;> omega

lemma pLt_asymm (a b : Nat × Nat) (h : pLt a b) : ¬ pLt b a := by
  unfold pLt at *
  omega

lemma pLt_irrefl (a : Nat × Nat) (h : pLt a a) : False := by
  unfold pLt at h
  omega

lemma pLt_trans (a b c : Nat × Nat) (h1 : pLt a b) (h2 : pLt b c) : pLt a c := by
  unfold pLt at *
  omega

instance : IsTrans StreamEntry idLt :=
  ⟨by intro a b c hab hbc; unfold idLt at *; omega⟩

lemma entriesSorted_mono (l : List StreamEntry) (hs : entriesSorted l) :
    ∀ i j (hi : i < l.length) (hj : j < l.length), i < j →
      pLt (entryKey l[i]) (entryKey l[j]) := by
  rw [entriesSorted_iff, List.chain'_iff_pairwise, List.pairwise_iff_getElem] at hs
  intro i j hi hj hij
  have h := hs i j hi hj hij
  unfold idLt at h
  exact h

/-- Rust core slice binary_search_by loop (since 1.52: left/right window,
mid = left + size/2), with explicit fuel so that concrete streams
evaluate; inl is Ok(found index), inr is Err(insertion point).  The
initial fuel (the slice length) always suffices since the window shrinks
every iteration. -/
def binarySearchGo (f : Nat → Ordering) : Nat → Nat → Nat → Sum Nat Nat
  | 0, left, _ => Sum.inr left
  | fuel + 1, left, right =>
      if left < right then
        match f (left + (right - left) / 2) with
        | Ordering.lt => binarySearchGo f fuel (left + (right - left) / 2 + 1) right
        | Ordering.gt => binarySearchGo f fuel left (left + (right - left) / 2)
        | Ordering.eq => Sum.inl (left + (right - left) / 2)
      else Sum.inr left

/-- The comparator closure |e| (e.milisec, e.sequence_number).cmp(&target);
the default entry is never read since mid stays in range. -/
def bsF (l : List StreamEntry) (t : Nat × Nat) (i : Nat) : Ordering :=
  pairOrd (entryKey (l.getD i ⟨0, 0, []⟩)) t

/-- Vec::binary_search_by over the entries. -/
def binarySearchBy (l : List StreamEntry) (t : Nat × Nat) : Sum Nat Nat :=
  binarySearchGo (bsF l t) l.length 0 l.length

/-- .unwrap_or_else(|x| x). -/
def rangeBS (l : List StreamEntry) (t : Nat × Nat) : Nat :=
  match binarySearchBy l t with
  | Sum.inl i => i
  | Sum.inr i => i

/-- stream.rs Stream::range.  none models the out-of-bounds panic of
self.entries[start_idx ..= end_idx]. -/
def streamRange (st : RStream) (s e : Nat × Nat) : Option (List StreamEntry) :=
  let startIdx := rangeBS st.entries s
  let endIdx := rangeBS st.entries e
  if startIdx ≤ endIdx + 1 ∧ endIdx < st.entries.length then
    some ((st.entries.drop startIdx).take (endIdx + 1 - startIdx))
  else none

lemma bs_inr_post (l : List StreamEntry) (t : Nat × Nat) (left : Nat)
    (h2 : left ≤ l.length)
    (pre1 : ∀ i (hi : i < l.length), i < left → pLt (entryKey l[i]) t)
    (pre2 : ∀ i (hi : i < l.length), left ≤ i → pLt t (entryKey l[i])) :
    left ≤ l.length ∧
    (∀ i (hi : i < l.length), pLt (entryKey l[i]) t ↔ i < left) ∧
    (∀ i (hi : i < l.length), entryKey l[i] ≠ t) := by
  refine ⟨h2, ?_, ?_⟩
  · intro i hi
    constructor
    · intro hlt
      by_contra hge
      push_neg at hge
      exact pLt_asymm _ _ (pre2 i hi hge) hlt
    · exact pre1 i hi
  · intro i hi he
    by_cases hc : i < left
    · exact pLt_irrefl t (he ▸ pre1 i hi hc)
    · exact pLt_irrefl t ((he ▸ pre2 i hi (by omega) : pLt t t))

lemma binarySearchGo_spec (l : List StreamEntry) (t : Nat × Nat)
    (hmono : ∀ i j (hi : i < l.length) (hj : j < l.length), i < j →
      pLt (entryKey l[i]) (entryKey l[j])) :
    ∀ fuel left right, left ≤ right → right ≤ l.length → right - left ≤ fuel →
      (∀ i (hi : i < l.length), i < left → pLt (entryKey l[i]) t) →
      (∀ i (hi : i < l.length), right ≤ i → pLt t (entryKey l[i])) →
      (match binarySearchGo (bsF l t) fuel left right with
       | Sum.inl j => ∃ hj : j < l.length, entryKey l[j] = t
       | Sum.inr j => j ≤ l.length ∧
           (∀ i (hi : i < l.length), pLt (entryKey l[i]) t ↔ i < j) ∧
           (∀ i (hi : i < l.length), entryKey l[i] ≠ t)) := by
  intro fuel
  induction fuel with
  | zero =>
      intro left right h1 h2 h3 pre1 pre2
      have heq : left = right := by omega
      subst heq
      simp only [binarySearchGo]
      exact bs_inr_post l t left h2 pre1 pre2
  | succ fuel ih =>
      intro left right h1 h2 h3 pre1 pre2
      by_cases hlr : left < right
      · have hmid : left + (right - left) / 2 < right := by
          have := Nat.div_lt_self (show 0 < right - left by omega)
            (show 1 < 2 by norm_num)
          omega
        have hmidlen : left + (right - left) / 2 < l.length := by omega
        have hbsf : bsF l t (left + (right - left) / 2) =
            pairOrd (entryKey l[left + (right - left) / 2]) t := by
          unfold bsF
          rw [List.getD_eq_getElem?_getD, List.getElem?_eq_getElem hmidlen]
          rfl
        simp only [binarySearchGo, if_pos hlr, hbsf]
        cases hord : pairOrd (entryKey l[left + (right - left) / 2]) t with
        | lt =>
            have hkm : pLt (entryKey l[left + (right - left) / 2]) t :=
              (pairOrd_eq_lt_iff _ _).mp hord
            refine ih (left + (right - left) / 2 + 1) right (by omega) h2 (by omega)
              ?_ pre2
            intro i hi hilt
            by_cases hc : i < left
            · exact pre1 i hi hc
            · by_cases hc2 : i = left + (right - left) / 2
              · subst hc2
                exact hkm
              · exact pLt_trans _ _ _
                  (hmono i (left + (right - left) / 2) hi hmidlen (by omega)) hkm
        | gt =>
            have hkm : pLt t (entryKey l[left + (right - left) / 2]) :=
              (pairOrd_eq_gt_iff _ _).mp hord
            refine ih left (left + (right - left) / 2) (by omega) (by omega) (by omega)
              pre1 ?_
            intro i hi hile
            by_cases hc2 : i = left + (right - left) / 2
            · subst hc2
              exact hkm
            · exact pLt_trans _ _ _ hkm
                (hmono (left + (right - left) / 2) i hmidlen hi (by omega))
        | eq =>
            exact ⟨hmidlen, (pairOrd_eq_eq_iff _ _).mp hord⟩
      · have heq : left = right := by omega
        subst heq
        simp only [binarySearchGo, if_neg hlr]
        exact bs_inr_post l t left h2 pre1 pre2

lemma pLe_of_not_pLt (a b : Nat × Nat) (h : ¬ pLt a b) : pLe b a := by
  obtain ⟨a1, a2⟩ := a
  obtain ⟨b1, b2⟩ := b
  unfold pLt at h
  unfold pLe pLt
  simp only [Prod.mk.injEq]
  omega

lemma rangeBS_spec (l : List StreamEntry) (t : Nat × Nat)
    (hmono : ∀ i j (hi : i < l.length) (hj : j < l.length), i < j →
      pLt (entryKey l[i]) (entryKey l[j])) :
    rangeBS l t ≤ l.length ∧
    (∀ i (hi : i < l.length), pLt (entryKey l[i]) t ↔ i < rangeBS l t) := by
  have h := binarySearchGo_spec l t hmono l.length 0 l.length (by omega) le_rfl
    (by omega) (fun i hi hlt => absurd hlt (by omega))
    (fun i hi hge => absurd hge (by omega))
  cases hbs : binarySearchBy l t with
  | inl j =>
      have hrj : rangeBS l t = j := by unfold rangeBS; rw [hbs]
      unfold binarySearchBy at hbs
      rw [hbs] at h
      obtain ⟨hj, hk⟩ := h
      rw [hrj]
      refine ⟨by omega, ?_⟩
      intro i hi
      constructor
      · intro hlt
        by_contra hge
        push_neg at hge
        by_cases hc : i = j
        · subst hc
          rw [hk] at hlt
          exact pLt_irrefl _ hlt
        · have := hmono j i hj hi (by omega)
          rw [hk] at this
          exact pLt_asymm _ _ this hlt
      · intro hlt
        have := hmono i j hi hj hlt
        rw [hk] at this
        exact this
  | inr j =>
      have hrj : rangeBS l t = j := by unfold rangeBS; rw [hbs]
      unfold binarySearchBy at hbs
      rw [hbs] at h
      rw [hrj]
      exact ⟨h.1, h.2.1⟩

lemma rangeBS_present (l : List StreamEntry) (t : Nat × Nat) (j : Nat)
    (hmono : ∀ i j (hi : i < l.length) (hj : j < l.length), i < j →
      pLt (entryKey l[i]) (entryKey l[j]))
    (hj : j < l.length) (hk : entryKey l[j] = t) :
    rangeBS l t < l.length ∧
    ∀ h : rangeBS l t < l.length, entryKey l[rangeBS l t] = t := by
  have h := binarySearchGo_spec l t hmono l.length 0 l.length (by omega) le_rfl
    (by omega) (fun i hi hlt => absurd hlt (by omega))
    (fun i hi hge => absurd hge (by omega))
  cases hbs : binarySearchBy l t with
  | inl j' =>
      have hrj : rangeBS l t = j' := by unfold rangeBS; rw [hbs]
      unfold binarySearchBy at hbs
      rw [hbs] at h
      obtain ⟨hj', hk'⟩ := h
      rw [hrj]
      exact ⟨hj', fun _ => hk'⟩
  | inr j' =>
      unfold binarySearchBy at hbs
      rw [hbs] at h
      exact absurd hk (h.2.2 j hj)

/-- Contiguous index segments of a list are filters of an index-determined
predicate. -/
lemma filter_eq_drop_take (P : StreamEntry → Bool) :
    ∀ (l : List StreamEntry) (a b : Nat),
      (∀ i (hi : i < l.length), (P l[i] = true ↔ a ≤ i ∧ i ≤ b)) →
      l.filter P = (l.drop a).take (b + 1 - a) := by
  intro l
  induction l with
  | nil => intro a b h; simp
  | cons x xs ih =>
      intro a b h
      cases a with
      | zero =>
          have hx : P x = true := by
            have h0 := h 0 (by simp)
            simp only [List.getElem_cons_zero] at h0
            exact h0.mpr ⟨by omega, by omega⟩
          cases b with
          | zero =>
              have hxs : xs.filter P = [] := by
                apply List.filter_eq_nil_iff.mpr
                intro e he
                obtain ⟨i, hi⟩ := List.mem_iff_getElem?.mp he
                obtain ⟨hilen, hie⟩ := List.getElem?_eq_some.mp hi
                have h1 := h (i + 1) (by simpa using Nat.succ_lt_succ hilen)
                simp only [List.getElem_cons_succ] at h1
                rw [hie] at h1
                intro hpe
                have := h1.mp hpe
                omega
              simp [List.filter_cons, hx, hxs]
          | succ b' =>
              have hxs : xs.filter P = (xs.drop 0).take (b' + 1 - 0) := by
                apply ih
                intro i hi
                have h1 := h (i + 1) (by simpa using Nat.succ_lt_succ hi)
                simp only [List.getElem_cons_succ] at h1
                rw [h1]
                omega
              simp only [List.filter_cons, hx, if_pos]
              simp only [List.drop_zero] at hxs ⊢
              rw [hxs]
              have harith : b' + 1 + 1 - 0 = (b' + 1 - 0) + 1 := by omega
              rw [harith, List.take_succ_cons]
      | succ a' =>
          have hx : P x = false := by
            have h0 := h 0 (by simp)
            simp only [List.getElem_cons_zero] at h0
            cases hPx : P x with
            | false => rfl
            | true => exact absurd (h0.mp hPx) (by omega)
          have hxs : xs.filter P = (xs.drop a').take (b - a') := by
            cases b with
            | zero =>
                have hfil : xs.filter P = [] := by
                  apply List.filter_eq_nil_iff.mpr
                  intro e he
                  obtain ⟨i, hi⟩ := List.mem_iff_getElem?.mp he
                  obtain ⟨hilen, hie⟩ := List.getElem?_eq_some.mp hi
                  have h1 := h (i + 1) (by simpa using Nat.succ_lt_succ hilen)
                  simp only [List.getElem_cons_succ] at h1
                  rw [hie] at h1
                  intro hpe
                  have := h1.mp hpe
                  omega
                rw [hfil]
                simp
            | succ b' =>
                have harg : ∀ i (hi : i < xs.length),
                    (P xs[i] = true ↔ a' ≤ i ∧ i ≤ b') := by
                  intro i hi
                  have h1 := h (i + 1) (by simpa using Nat.succ_lt_succ hi)
                  simp only [List.getElem_cons_succ] at h1
                  rw [h1]
                  omega
                exact ih a' b' harg
          have harith : b + 1 - (a' + 1) = b - a' := by omega
          simp only [List.filter_cons, hx, List.drop_succ_cons, harith]
          exact hxs

/-- C7 counterexample: on the stream holding only entry 1-1,
range((1,1), (2,0)) computes end_idx = 1 = len and the slice
entries[0 ..= 1] panics (modelled none); and on the stream [1-0, 3-0],
range((1,0), (2,0)) returns BOTH entries, including 3-0 which is greater
than the end bound. -/
theorem c7_range_counterexample :
    streamRange ⟨[⟨1, 1, []⟩]⟩ (1, 1) (2, 0) = none ∧
    streamRange ⟨[⟨1, 0, []⟩, ⟨3, 0, []⟩]⟩ (1, 0) (2, 0) =
      some [⟨1, 0, []⟩, ⟨3, 0, []⟩] ∧
    pLt (2, 0) (entryKey ⟨3, 0, []⟩) := by
  refine ⟨by decide, by decide, by decide⟩

/-- C7 amended: on a stream with strictly increasing entries, when the end
bound is the id of an entry actually present and start ≤ end, range
returns exactly the entries e with start ≤ (e.ms, e.seq) ≤ end; in
particular range(id, id) for a present id returns exactly that entry.
(When the end bound is absent, the slice bound is an insertion point: the
call either panics — end beyond the last id — or also returns the first
entry greater than end, as the counterexample shows.) -/
theorem c7_range_amended (st : RStream) (s t : Nat × Nat) (j : Nat)
    (hs : entriesSorted st.entries)
    (hj : j < st.entries.length)
    (hkey : entryKey st.entries[j] = t)
    (hse : pLe s t) :
    streamRange st s t =
      some (st.entries.filter (fun e =>
        decide (pLe s (entryKey e)) && decide (pLe (entryKey e) t))) ∧
    (s = t → streamRange st s t = some [st.entries[j]]) := by
  have hmono := entriesSorted_mono st.entries hs
  have hA := rangeBS_spec st.entries s hmono
  obtain ⟨hblen, hbkeyf⟩ := rangeBS_present st.entries t j hmono hj hkey
  have hbkey := hbkeyf hblen
  set a := rangeBS st.entries s with ha
  set b := rangeBS st.entries t with hbdef
  have hab : a ≤ b := by
    by_contra hc
    push_neg at hc
    have hblt : pLt (entryKey st.entries[b]) s := (hA.2 b hblen).mpr hc
    rw [hbkey] at hblt
    rcases hse with h | h
    · exact pLt_asymm _ _ h hblt
    · rw [← h] at hblt
      exact pLt_irrefl _ hblt
  have hslice : streamRange st s t =
      some ((st.entries.drop a).take (b + 1 - a)) := by
    unfold streamRange
    rw [← ha, ← hbdef, if_pos ⟨by omega, hblen⟩]
  constructor
  · rw [hslice]
    congr 1
    rw [filter_eq_drop_take]
    intro i hi
    simp only [Bool.and_eq_true, decide_eq_true_eq]
    constructor
    · rintro ⟨h1, h2⟩
      constructor
      · by_contra hc
        push_neg at hc
        have hlt : pLt (entryKey st.entries[i]) s := (hA.2 i hi).mpr hc
        rcases h1 with h | h
        · exact pLt_asymm _ _ h hlt
        · rw [← h] at hlt
          exact pLt_irrefl _ hlt
      · by_contra hc
        push_neg at hc
        have hb2 : pLt (entryKey st.entries[b]) (entryKey st.entries[i]) :=
          hmono b i hblen hi hc
        rw [hbkey] at hb2
        rcases h2 with h | h
        · exact pLt_asymm _ _ h hb2
        · rw [h] at hb2
          exact pLt_irrefl _ hb2
    · rintro ⟨h1, h2⟩
      constructor
      · have hnot : ¬ pLt (entryKey st.entries[i]) s := by
          intro hcon
          have := (hA.2 i hi).mp hcon
          omega
        exact pLe_of_not_pLt _ _ hnot
      · by_cases hc : i = b
        · subst hc
          exact Or.inr hbkey
        · have hlt : i < b := by omega
          have hmn := hmono i b hi hblen hlt
          rw [hbkey] at hmn
          exact Or.inl hmn
  · intro hst
    subst hst
    have haeqb : a = b := by rw [ha, hbdef]
    rw [hslice, haeqb]
    have hdrop : st.entries.drop b = st.entries[b] :: st.entries.drop (b + 1) :=
      List.drop_eq_getElem_cons hblen
    rw [hdrop]
    have htake : b + 1 - b = 1 := by omega
    rw [htake, List.take_succ_cons, List.take_zero]
    have hjb : j = b := by
      by_contra hc
      rcases Nat.lt_or_ge j b with hlt | hge
      · have := hmono j b hj hblen hlt
        rw [hkey, hbkey] at this
        exact pLt_irrefl _ this
      · have := hmono b j hblen hj (by omega)
        rw [hkey, hbkey] at this
        exact pLt_irrefl _ this
    subst hjb
    rfl

/-- C7 witness: the amended theorem on the concrete stream [1-0, 2-1, 3-0]
with start (1,0) and end (2,1) (present), and the singleton instance
range((2,1), (2,1)). -/
theorem c7_range_amended_witness :
    streamRange ⟨[⟨1, 0, []⟩, ⟨2, 1, []⟩, ⟨3, 0, []⟩]⟩ (1, 0) (2, 1) =
      some ([⟨1, 0, []⟩, ⟨2, 1, []⟩, ⟨3, 0, []⟩].filter (fun e =>
        decide (pLe (1, 0) (entryKey e)) && decide (pLe (entryKey e) (2, 1)))) ∧
    streamRange ⟨[⟨1, 0, []⟩, ⟨2, 1, []⟩, ⟨3, 0, []⟩]⟩ (2, 1) (2, 1) =
      some [⟨2, 1, []⟩] := by
  constructor
  · exact (c7_range_amended ⟨[⟨1, 0, []⟩, ⟨2, 1, []⟩, ⟨3, 0, []⟩]⟩ (1, 0) (2, 1) 1
      (by decide) (by decide) (by decide) (by decide)).1
  · exact (c7_range_amended ⟨[⟨1, 0, []⟩, ⟨2, 1, []⟩, ⟨3, 0, []⟩]⟩ (2, 1) (2, 1) 1
      (by decide) (by decide) (by decide) (by decide)).2 rfl

/-! ## C8: MULTI/EXEC (runner.rs handle_multi/handle_exec and
transaction_runner.rs) -/

/-- Rust char::to_ascii_lowercase applied to every character. -/
def asciiLowerChar (c : Char) : Char :=
  if 'A' ≤ c ∧ c ≤ 'Z' then Char.ofNat (c.toNat + 32) else c

/-- Rust str::to_ascii_lowercase. -/
def asciiLower (s : String) : String := String.mk (s.data.map asciiLowerChar)

/-- Rust str::split_whitespace().collect(): split on whitespace runs,
dropping empty pieces (structurally recursive on the characters). -/
def splitWsGo : List Char → List Char → List String
  | [], acc => if acc.isEmpty then [] else [String.mk acc.reverse]
  | c :: rest, acc =>
      if c.isWhitespace then
        if acc.isEmpty then splitWsGo rest []
        else String.mk acc.reverse :: splitWsGo rest []
      else splitWsGo rest (c :: acc)

def splitWhitespace (s : String) : List String := splitWsGo s.data []

/-- utils.rs is_matched: glob matching with at most one '*'. -/
def isMatched (pattern word : String) : Bool :=
  if pattern.isEmpty then false
  else if pattern = "*" then true
  else
    match pattern.data.findIdx? (fun c => c = '*') with
    | some idx =>
        let pre := pattern.data.take idx
        let suf := pattern.data.drop (idx + 1)
        if pre.isEmpty then List.isSuffixOf suf word.data
        else if suf.isEmpty then List.isPrefixOf pre word.data
        else List.isPrefixOf pre word.data && List.isSuffixOf suf word.data &&
             decide (pre.length + suf.length ≤ word.data.length)
    | none => pattern = word

/-- val_type.rs ValueType::to_string.  Only the String branch is exercised
by the verified claims; collection renderings follow the source's bracketed
forms (scores print through the Int model of f64). -/
def valToString : ValueType → String
  | ValueType.string s => s
  | ValueType.list items => "[" ++ String.intercalate ", " items ++ "]"
  | ValueType.set items => "\x7b" ++ String.intercalate ", " items ++ "\x7d"
  | ValueType.zset pairs =>
      "[" ++ String.intercalate ", "
        (pairs.map fun p => "(" ++ p.2 ++ ": " ++ toString p.1 ++ ")") ++ "]"
  | ValueType.hash pairs =>
      "\x7b" ++ String.intercalate ", "
        (pairs.map fun p => p.1 ++ ": " ++ p.2) ++ "\x7d"
  | ValueType.stream st =>
      "[" ++ String.intercalate ", "
        (st.entries.map fun e =>
          toString e.milisec ++ "-" ++ toString e.sequenceNumber ++ " [" ++
          String.intercalate ", "
            ((e.keyVal.map fun p => [p.1, p.2]).flatten) ++ "]") ++ "]"
  | ValueType.vectorSet => "[]"

/-- enums TransactionResult (used as TransactionResult::Some / ::Err). -/
inductive TransactionResult where
  | ok (s : String)
  | err (s : String)
deriving Repr, DecidableEq

/-- transaction_runner.rs err(): note it wraps into Some, not Err. -/
def txErrOf (message : String) : TransactionResult :=
  TransactionResult.ok ("-ERR " ++ message ++ "\r\n")

/-- transaction_runner.rs string(): a RESP simple string. -/
def txString (message : String) : TransactionResult :=
  TransactionResult.ok ("+" ++ message ++ "\r\n")

/-- transaction_runner.rs bulk_string(): empty renders as null bulk. -/
def txBulkString (message : String) : TransactionResult :=
  if message.isEmpty then TransactionResult.ok "$-1\r\n"
  else TransactionResult.ok
    ("$" ++ toString (numBytes message) ++ "\r\n" ++ message ++ "\r\n")

/-- transaction_runner.rs array(). -/
def txArray (messages : List String) : TransactionResult :=
  TransactionResult.ok
    ("*" ++ toString messages.length ++ "\r\n" ++
     String.join (messages.map fun m =>
       "$" ++ toString (numBytes m) ++ "\r\n" ++ m ++ "\r\n"))

/-- transaction_runner.rs none(): a null bulk string. -/
def txNone : TransactionResult := TransactionResult.ok "$-1\r\n"

/-- transaction_runner.rs integer(): parses back through i64. -/
def txInteger (message : String) : TransactionResult :=
  match parseI64 message with
  | some n => TransactionResult.ok (":" ++ toString n ++ "\r\n")
  | none => TransactionResult.err "ERR value is not an integer"

/-- Server-level parameters read by the transaction handlers (global
state fields and the wall clock). -/
structure TxParams where
  dirPath : String
  dbfilename : String
  isMaster : Bool
  masterReplid : String
  masterReplOffset : Nat
  nowMs : Nat
deriving Repr, DecidableEq

/-- The EX/PX option loop of TransactionRunner::handle_set (and the same
loop in Runner::handle_set), consuming (option, value) pairs; inl is the
error message of a failed parse. -/
def txSetOpts (nowMs : Nat) :
    List String → KeyConfig → Option String → Option String →
    Sum String (KeyConfig × Option String × Option String)
  | [], c, e, p => Sum.inr (c, e, p)
  | o :: rest, c, e, p =>
      if asciiLower o = "ex" then
        match rest with
        | [] => Sum.inl "invalid EX argument"
        | v :: rest' =>
            match parseU64 v with
            | some secs =>
                txSetOpts nowMs rest' ⟨some (nowMs + secs * 1000), c.updatedAt⟩
                  (some v) p
            | none => Sum.inl "invalid EX argument"
      else if asciiLower o = "px" then
        match rest with
        | [] => Sum.inl "invalid EX argument"
        | v :: rest' =>
            match parseU64 v with
            | some ms =>
                txSetOpts nowMs rest' ⟨some (nowMs + ms), c.updatedAt⟩ e (some v)
            | none => Sum.inl "invalid EX argument"
      else Sum.inr (c, e, p)

/-- runner.rs handle_set propagation frame with an EX option. -/
def setPropagationEx (key value ex : String) : String :=
  "*5\r\n$3\r\nSET\r\n$" ++ toString (numBytes key) ++ "\r\n" ++ key ++
  "\r\n$" ++ toString (numBytes value) ++ "\r\n" ++ value ++
  "\r\n$2\r\nEX\r\n$" ++ toString (numBytes ex) ++ "\r\n" ++ ex ++ "\r\n"

/-- runner.rs handle_set propagation frame with a PX option. -/
def setPropagationPx (key value px : String) : String :=
  "*5\r\n$3\r\nSET\r\n$" ++ toString (numBytes key) ++ "\r\n" ++ key ++
  "\r\n$" ++ toString (numBytes value) ++ "\r\n" ++ value ++
  "\r\n$2\r\nPX\r\n$" ++ toString (numBytes px) ++ "\r\n" ++ px ++ "\r\n"

/-- TransactionRunner::exec with its per-command handlers
(transaction_runner.rs lines 43-448): returns the result plus the mutated
maps and the propagated messages. -/
def txExec (ps : TxParams) (args : List String) (db : Db) (cfg : DbConfig) :
    TransactionResult × Db × DbConfig × List String :=
  match args with
  | [] => (txNone, db, cfg, [])
  | cmd :: rest =>
      let command := asciiLower cmd
      if command = "ping" then (txString "PONG", db, cfg, [])
      else if command = "echo" then
        match rest.head? with
        | some msg => (txString msg, db, cfg, [])
        | none => (txString "", db, cfg, [])
      else if command = "set" then
        if rest.length < 2 then (txErrOf "invalid SET argument", db, cfg, [])
        else
          let key := rest.headD ""
          let value := rest.getD 1 ""
          match txSetOpts ps.nowMs (rest.drop 2) KeyConfig.default none none with
          | Sum.inl e => (txErrOf e, db, cfg, [])
          | Sum.inr (config, exArg, pxArg) =>
              let db' := mapInsert db key (ValueType.string value)
              let cfg' := mapInsert cfg key config
              let propagation :=
                match exArg with
                | some ex => setPropagationEx key value ex
                | none =>
                    match pxArg with
                    | some px => setPropagationPx key value px
                    | none => setPropagation key value
              (txString "OK", db', cfg', [propagation])
      else if command = "get" then
        if rest.length < 1 then (txErrOf "invalid GET argument", db, cfg, [])
        else
          let key := rest.headD ""
          let expired :=
            match mapGet cfg key with
            | some c => c.isExpired ps.nowMs
            | none => false
          if expired then
            (txNone, mapRemove db key, mapRemove cfg key, [])
          else
            match mapGet db key with
            | some v => (txString (valToString v), db, cfg, [])
            | none => (txNone, db, cfg, [])
      else if command = "del" then
        if rest.isEmpty then (txErrOf "invalid DEL argument", db, cfg, [])
        else
          let key := rest.headD ""
          let removed : Nat := if (mapGet db key).isSome then 1 else 0
          (txInteger (toString removed), mapRemove db key, mapRemove cfg key,
           [delPropagation key])
      else if command = "incr" then
        if rest.isEmpty then (txErrOf "invalid INCR argument", db, cfg, [])
        else
          let key := rest.headD ""
          if ¬ mapContains cfg key ∨ ¬ mapContains db key then
            (txInteger "1", mapInsert db key (ValueType.string "1"),
             mapInsert cfg key KeyConfig.default, [incrPropagationTx key])
          else
            match mapGet cfg key with
            | some c =>
                if c.isExpired ps.nowMs then
                  (txErrOf ("key " ++ key ++ " is expired"),
                   mapRemove db key, mapRemove cfg key, [])
                else
                  match mapGet db key with
                  | some (ValueType.string s) =>
                      match parseI64 s with
                      | some val =>
                          let newValue := wrapI64 (val + 1)
                          (txInteger (toString newValue),
                           mapInsert db key (ValueType.string (toString newValue)),
                           cfg, [incrPropagationTx key])
                      | none =>
                          (txErrOf "value is not an integer or out of range",
                           db, cfg, [])
                  | some _ =>
                      (txErrOf "value is not an integer or out of range",
                       db, cfg, [])
                  | none => (txNone, db, cfg, [])
            | none => (txNone, db, cfg, [])
      else if command = "config" then
        if rest.length ≥ 2 ∧ asciiLower (rest.headD "") = "get" then
          let configKey := asciiLower (rest.getD 1 "")
          if configKey = "dir" then
            (txArray ["dir", ps.dirPath], db, cfg, [])
          else if configKey = "dbfilename" then
            (txArray ["dbfilename", ps.dbfilename], db, cfg, [])
          else (txArray [""], db, cfg, [])
        else (txErrOf "invalid CONFIG argument", db, cfg, [])
      else if command = "keys" then
        if rest.length = 1 then
          let pat := rest.headD ""
          let expired := cfg.filter fun p =>
            isMatched pat p.1 && p.2.isExpired ps.nowMs
          let db' := expired.foldl (fun d p => mapRemove d p.1) db
          let cfg' := expired.foldl (fun c p => mapRemove c p.1) cfg
          let valid := (cfg'.map Prod.fst).filter (fun k => isMatched pat k)
          (txArray valid, db', cfg', [])
        else (txArray [], db, cfg, [])
      else if command = "info" then
        let info :=
          if ps.isMaster then
            "role:master" ++ "\nmaster_replid:" ++ ps.masterReplid ++
            "\nmaster_repl_offset:" ++ toString ps.masterReplOffset
          else "role:slave"
        (txBulkString info, db, cfg, [])
      else if command = "command" ∨ command = "docs" then
        (txString "Ok", db, cfg, [])
      else (txNone, db, cfg, [])

/-- TransactionRunner::execute_transactions (lines 21-41): run the queued
tasks in order, pushing each result (Some or Err payload alike) onto the
response vector and recording job_done_at. -/
def execTxLoop (ps : TxParams) :
    List String → Nat → Transaction → Db → DbConfig →
    Transaction × Db × DbConfig × List String
  | [], _, tx, db, cfg => (tx, db, cfg, [])
  | task :: restTasks, idx, tx, db, cfg =>
      let args := splitWhitespace task
      let (res, db', cfg', props) := txExec ps args db cfg
      let re := match res with
                | TransactionResult.ok s => s
                | TransactionResult.err e => e
      let tx' := { tx with response := tx.response ++ [some re],
                           jobDoneAt := some idx }
      let (txf, dbf, cfgf, props') := execTxLoop ps restTasks (idx + 1) tx' db' cfg'
      (txf, dbf, cfgf, props ++ props')

def executeTransactions (ps : TxParams) (tx : Transaction) (db : Db)
    (cfg : DbConfig) : Transaction × Db × DbConfig × List String :=
  execTxLoop ps tx.tasks 0 tx db cfg

/-- Modelled from the spec: write_resp_array, used by handle_exec, is
missing from src/ (only its import and call site exist); section 4.6 says
EXEC "emits one outer *N\r\n array concatenating those frames", and
section 4.1's reply grammar renders a null item as a null bulk. -/
def writeRespArray (items : List (Option String)) : String :=
  "*" ++ toString items.length ++ "\r\n" ++
  String.join (items.map fun it =>
    match it with
    | some s => s
    | none => "$-1\r\n")

/-- runner.rs handle_multi (lines 1050-1060): note that after writing the
already-started error the source still resets and re-arms the transaction
and writes +OK (no early return). -/
def handleMulti (tx : Transaction) : String × Transaction :=
  let pre := if tx.isTxing then writeError "Transaction has already started" else ""
  (pre ++ writeSimpleString "OK",
   { isTxing := true, tasks := [], jobDoneAt := none, response := [] })

/-- runner.rs handle_exec (lines 1062-1080). -/
def handleExec (ps : TxParams) (tx : Transaction) (db : Db) (cfg : DbConfig) :
    String × Transaction × Db × DbConfig × List String :=
  if ¬ tx.isTxing then (writeError "EXEC without MULTI", tx, db, cfg, [])
  else
    let r := executeTransactions ps tx db cfg
    (writeRespArray r.1.response, { r.1 with isTxing := false },
     r.2.1, r.2.2.1, r.2.2.2)

lemma execTxLoop_response_length (ps : TxParams) :
    ∀ (tasks : List String) (idx : Nat) (tx : Transaction) (db : Db)
      (cfg : DbConfig),
      (execTxLoop ps tasks idx tx db cfg).1.response.length =
        tx.response.length + tasks.length := by
  intro tasks
  induction tasks with
  | nil => intro idx tx db cfg; rfl
  | cons task rest ih =>
      intro idx tx db cfg
      show (execTxLoop ps (task :: rest) idx tx db cfg).1.response.length = _
      rw [execTxLoop]
      simp only []
      rw [ih]
      simp
      omega

/-- C8: EXEC executes the queued tasks in order, collects one RESP-framed
result per task into the response vector (one entry per task, appended in
order), and emits a single outer array reply *N followed by the
concatenation of those frames; in particular MULTI; INCR x; INCR x; EXEC
on a fresh keyspace replies +OK, +QUEUED, +QUEUED and then exactly
*2\r\n:1\r\n:2\r\n.  (The messages the two in-tx INCRs hand to
propagate_slaves are the malformed $3-length frames of
transaction_runner.rs line 406; see C1.) -/
theorem c8_exec_transactions :
    (∀ (ps : TxParams) (tx : Transaction) (db : Db) (cfg : DbConfig),
       tx.isTxing = true →
       (handleExec ps tx db cfg).1 =
         "*" ++ toString (tx.response.length + tx.tasks.length) ++ "\r\n" ++
         String.join ((executeTransactions ps tx db cfg).1.response.map
           (fun it => it.getD "$-1\r\n")) ∧
       (executeTransactions ps tx db cfg).1.response.length =
         tx.response.length + tx.tasks.length ∧
       (handleExec ps tx db cfg).2.1.isTxing = false) ∧
    (let ps : TxParams := ⟨"/var/tmp/redis", "dump.rdb", true, "id", 0, 0⟩
     let s1 := handleMulti Transaction.new
     let s2 := handleIncr false ["x"] s1.2 [] [] 0
     let s3 := handleIncr false ["x"] s2.2.1 s2.2.2.1 s2.2.2.2.1 0
     let r := handleExec ps s3.2.1 s3.2.2.1 s3.2.2.2.1
     s1.1 = "+OK\r\n" ∧ s2.1 = "+QUEUED\r\n" ∧ s3.1 = "+QUEUED\r\n" ∧
     r.1 = "*2\r\n:1\r\n:2\r\n" ∧
     mapGet r.2.2.1 "x" = some (ValueType.string "2") ∧
     r.2.2.2.2 = [incrPropagationTx "x", incrPropagationTx "x"]) := by
  constructor
  · intro ps tx db cfg htx
    have hlen : (executeTransactions ps tx db cfg).1.response.length =
        tx.response.length + tx.tasks.length :=
      execTxLoop_response_length ps tx.tasks 0 tx db cfg
    refine ⟨?_, hlen, ?_⟩
    · have hgoal : (handleExec ps tx db cfg).1 =
          "*" ++ toString ((executeTransactions ps tx db cfg).1.response.length) ++
          "\r\n" ++
          String.join ((executeTransactions ps tx db cfg).1.response.map
            (fun it => it.getD "$-1\r\n")) := by
        unfold handleExec
        rw [if_neg (by simp [htx])]
        have hf : (fun it : Option String => Option.getD it "$-1\r\n") =
            (fun it : Option String =>
              match it with
              | some s => s
              | none => "$-1\r\n") :=
          funext fun it => by cases it <;> rfl
        rw [hf]
        rfl
      rw [hlen] at hgoal
      exact hgoal
    · unfold handleExec
      rw [if_neg (by simp [htx])]
  · exact ⟨rfl, rfl, rfl, rfl, rfl, rfl⟩

/-- C8 witness: the general conjunct applied to the concrete transaction
holding the two queued INCR tasks. -/
theorem c8_exec_transactions_witness :
    (handleExec ⟨"/var/tmp/redis", "dump.rdb", true, "id", 0, 0⟩
       ⟨true, ["incr x", "incr x"], none, []⟩ [] []).1 =
      "*" ++ toString (2 : Nat) ++ "\r\n" ++
      String.join ((executeTransactions
        ⟨"/var/tmp/redis", "dump.rdb", true, "id", 0, 0⟩
        ⟨true, ["incr x", "incr x"], none, []⟩ [] []).1.response.map
          (fun it => it.getD "$-1\r\n")) := by
  have h := (c8_exec_transactions.1 ⟨"/var/tmp/redis", "dump.rdb", true, "id", 0, 0⟩
    ⟨true, ["incr x", "incr x"], none, []⟩ [] [] rfl).1
  exact h

/-! ## C10: XREAD argument parsing (xread_config.rs from_args, lines 9-106,
and runner.rs handle_xread, lines 1468-1479) -/

/-- xread_config.rs XreadConfig. -/
structure XreadConfigS where
  count : Option Nat
  block : Option Nat
  streams : List (String × String)
deriving Repr, DecidableEq

/-- The inner while of the "streams" arm: consume arguments as stream keys
until a keyword or the end (fuel = remaining argument count). -/
def collectStreamKeys (args : List String) : Nat → Nat → List String × Nat
  | 0, i => ([], i)
  | fuel + 1, i =>
      if i < args.length then
        let a := asciiLower (args.getD i "")
        if a = "count" ∨ a = "block" then ([], i)
        else if a = "streams" then ([], i)
        else
          let r := collectStreamKeys args fuel (i + 1)
          (args.getD i "" :: r.1, r.2)
      else ([], i)

/-- The for loop pairing collected keys with the ids that follow them. -/
def pairStreams (args : List String) (idsStart : Nat) :
    List String → Nat → List (String × String) × Option String
  | [], _ => ([], none)
  | key :: rest, ix =>
      if idsStart + ix ≥ args.length then ([], some "Missing ID for stream")
      else
        let r := pairStreams args idsStart rest (ix + 1)
        ((key, args.getD (idsStart + ix) "") :: r.1, r.2)

/-- The outer while of from_args; the result tuple is
(count, block, streams, found_streams, i, err).  Fuel args.length + 1
always suffices: every continuing iteration advances i by 2. -/
def fromArgsLoop (args : List String) :
    Nat → Nat → Option Nat → Option Nat → List (String × String) → Bool →
    Option Nat × Option Nat × List (String × String) × Bool × Nat × Option String
  | 0, i, count, block, streams, found => (count, block, streams, found, i, none)
  | fuel + 1, i, count, block, streams, found =>
      if i < args.length then
        let arg := asciiLower (args.getD i "")
        if arg = "count" then
          if i + 1 ≥ args.length then
            (count, block, streams, found, i, some "COUNT requires an argument")
          else
            match parseU64 (args.getD (i + 1) "") with
            | some n => fromArgsLoop args fuel (i + 2) (some n) block streams found
            | none =>
                (count, block, streams, found, i, some "COUNT must be an integer")
        else if arg = "block" then
          if i + 1 ≥ args.length then
            (count, block, streams, found, i, some "BLOCK requires an argument")
          else
            match parseU64 (args.getD (i + 1) "") with
            | some n => fromArgsLoop args fuel (i + 2) count (some n) streams found
            | none =>
                (count, block, streams, found, i, some "BLOCK must be an integer")
        else if arg = "streams" then
          if (collectStreamKeys args (args.length - (i + 1)) (i + 1)).1.length = 0 ∨
             args.length < (collectStreamKeys args (args.length - (i + 1)) (i + 1)).2 +
               (collectStreamKeys args (args.length - (i + 1)) (i + 1)).1.length then
            (count, block, streams, true,
             (collectStreamKeys args (args.length - (i + 1)) (i + 1)).2,
             some "STREAMS must be followed by keys and their corresponding IDs")
          else
            (count, block,
             streams ++ (pairStreams args
               (collectStreamKeys args (args.length - (i + 1)) (i + 1)).2
               (collectStreamKeys args (args.length - (i + 1)) (i + 1)).1 0).1,
             true,
             (collectStreamKeys args (args.length - (i + 1)) (i + 1)).2 +
               (collectStreamKeys args (args.length - (i + 1)) (i + 1)).1.length,
             (pairStreams args
               (collectStreamKeys args (args.length - (i + 1)) (i + 1)).2
               (collectStreamKeys args (args.length - (i + 1)) (i + 1)).1 0).2)
        else
          (count, block, streams, found, i,
           some ("Unknown or misplaced argument: " ++ args.getD i ""))
      else (count, block, streams, found, i, none)

/-- xread_config.rs XreadConfig::from_args. -/
def fromArgs (args : List String) : XreadConfigS × Nat × Option String :=
  let r := fromArgsLoop args (args.length + 1) 0 none none [] false
  let err := if ¬ r.2.2.2.1 then some "Missing STREAMS argument" else r.2.2.2.2.2
  let consumed := if err.isSome then max r.2.2.2.2.1 1 else r.2.2.2.2.1
  (⟨r.1, r.2.1, r.2.2.1⟩, consumed, err)

/-- Modelled from the spec: parse_range, imported by runner.rs from utils
but missing from src/: an id is "<ms>-<seq>", a bare "<ms>" (sequence 0),
or "$" standing for the supplied last-entry id (sections 4.4 and 6). -/
def parseRangeSpec (range : String) (last : Option (Nat × Nat)) :
    Option (Nat × Nat) :=
  if range = "$" then last
  else
    match splitDash range with
    | [msStr] => (parseU64 msStr).map fun ms => (ms, 0)
    | [msStr, seqStr] =>
        match parseU64 msStr, parseU64 seqStr with
        | some a, some b => some (a, b)
        | _, _ => none
    | _ => none

/-- Modelled from the spec: the two-argument Stream::range_start used by
handle_xread (missing from src/; the one-argument version in stream.rs
returns the tail from an inclusive start): entries from start, inclusive
or exclusive per the flag (section 4.4). -/
def rangeStartSpec (st : RStream) (start : Nat × Nat) (inclusive : Bool) :
    List StreamEntry :=
  st.entries.filter fun e =>
    if inclusive then decide (pLe start (entryKey e))
    else decide (pLt start (entryKey e))

/-- Modelled from the spec: the non-error path of handle_xread (runner.rs
lines 1481-1597).  The BLOCK polling loop is collapsed: the pure keyspace
never changes between polls, so the loop either finds entries at once or
times out with a null array (BLOCK 0 polls forever in the source; no
verified claim reaches this function).  Rendering follows the source's
write_all sequence. -/
def xreadSuccess (config : XreadConfigS) (db : Db) : String :=
  let renderOne : String × String → String := fun kv =>
    match mapGet db kv.1 with
    | some (ValueType.stream st) =>
        match parseRangeSpec kv.2 (some ((st.entries.getLast?.map entryKey).getD (0, 0))) with
        | none => writeError "not valid id"
        | some start =>
            let entries := rangeStartSpec st start (kv.2 ≠ "$")
            "*2\r\n" ++ "$" ++ toString (numBytes kv.1) ++ "\r\n" ++ kv.1 ++ "\r\n" ++
            "*" ++ toString entries.length ++ "\r\n" ++
            String.join (entries.map fun e =>
              let entryId := toString e.milisec ++ "-" ++ toString e.sequenceNumber
              "*2\r\n" ++ "$" ++ toString (numBytes entryId) ++ "\r\n" ++ entryId ++ "\r\n" ++
              "*" ++ toString (e.keyVal.length * 2) ++ "\r\n" ++
              String.join (e.keyVal.map fun fv =>
                "$" ++ toString (numBytes fv.1) ++ "\r\n" ++ fv.1 ++ "\r\n" ++
                "$" ++ toString (numBytes fv.2) ++ "\r\n" ++ fv.2 ++ "\r\n"))
    | _ => writeError "stream not found or not of type 'stream'"
  let found := config.streams.any fun kv =>
    match mapGet db kv.1 with
    | some (ValueType.stream st) =>
        if kv.2 = "$" then false
        else
          match parseRangeSpec kv.2 none with
          | some start => ¬ (rangeStartSpec st start true).isEmpty
          | none => false
    | _ => false
  if config.block.isSome ∧ ¬ found then "*-1\r\n"
  else if config.streams.isEmpty then writeError "no streams specified for XREAD"
  else
    "*" ++ toString config.streams.length ++ "\r\n" ++
    String.join (config.streams.map renderOne)

/-- runner.rs handle_xread: on a parse error the handler writes the error
and returns without touching any stream. -/
def handleXread (args : List String) (db : Db) : String :=
  match fromArgs args with
  | (_, _, some e) => writeError e
  | (config, _, none) => xreadSuccess config db

lemma collectStreamKeys_all (args : List String) :
    ∀ fuel i, i ≤ args.length → args.length - i ≤ fuel →
      (∀ j (hj : j < args.length), i ≤ j →
         asciiLower args[j] ≠ "count" ∧ asciiLower args[j] ≠ "block" ∧
         asciiLower args[j] ≠ "streams") →
      collectStreamKeys args fuel i = (args.drop i, args.length) := by
  intro fuel
  induction fuel with
  | zero =>
      intro i hle hfuel _
      have : i = args.length := by omega
      subst this
      simp [collectStreamKeys, List.drop_length]
  | succ fuel ih =>
      intro i hle hfuel hkw
      by_cases hi : i < args.length
      · have hget : args.getD i "" = args[i] := by
          rw [List.getD_eq_getElem?_getD, List.getElem?_eq_getElem hi]
          rfl
        obtain ⟨h1, h2, h3⟩ := hkw i hi le_rfl
        rw [collectStreamKeys]
        rw [if_pos hi]
        simp only [hget]
        rw [if_neg (by simp [h1, h2]), if_neg h3]
        have hrec := ih (i + 1) (by omega) (by omega)
          (fun j hj hij => hkw j hj (by omega))
        simp only [hrec]
        rw [List.drop_eq_getElem_cons hi]
      · have : i = args.length := by omega
        subst this
        rw [collectStreamKeys]
        rw [if_neg (by omega)]
        simp [List.drop_length]

/-- C10: for every well-formed XREAD argument list
STREAMS k1..kn id1..idn (n ≥ 1, no key or id spelled count/block/streams),
the inner key-collecting loop of from_args consumes the trailing ids as
stream keys, the count check args.len < ids_start + ids_num therefore
fails, from_args reports the STREAMS arity error, and handle_xread answers
with exactly that error reply, returning no entries. -/
theorem c10_xread_wellformed_errors (keys ids : List String)
    (hn : 1 ≤ keys.length) (hlen : ids.length = keys.length)
    (hkw : ∀ x ∈ keys ++ ids,
       asciiLower x ≠ "count" ∧ asciiLower x ≠ "block" ∧
       asciiLower x ≠ "streams") :
    (fromArgs ("STREAMS" :: (keys ++ ids))).2.2 =
      some "STREAMS must be followed by keys and their corresponding IDs" ∧
    ∀ db : Db, handleXread ("STREAMS" :: (keys ++ ids)) db =
      "-ERR STREAMS must be followed by keys and their corresponding IDs\r\n" := by
  set args := "STREAMS" :: (keys ++ ids) with hargs
  have hlen0 : args.length = (keys ++ ids).length + 1 := by simp [hargs]
  have hkl : 1 ≤ (keys ++ ids).length := by
    rw [List.length_append]
    omega
  have hcollect : collectStreamKeys args (args.length - 1) 1 =
      (keys ++ ids, args.length) := by
    exact collectStreamKeys_all args (args.length - 1) 1 (by omega) (by omega)
      (fun j hj hij => by
        cases j with
        | zero => exact absurd hij (by omega)
        | succ j' =>
            have hjlt : j' < (keys ++ ids).length := by
              rw [hlen0] at hj
              omega
            have hidx : args[j' + 1] = (keys ++ ids)[j'] := by
              simp [hargs]
            rw [hidx]
            exact hkw _ (List.getElem_mem hjlt))
  have hc : collectStreamKeys args (args.length - (0 + 1)) (0 + 1) =
      (keys ++ ids, args.length) := by
    have harith : args.length - (0 + 1) = args.length - 1 := by omega
    rw [harith]
    exact hcollect
  have hloop : fromArgsLoop args (args.length + 1) 0 none none [] false =
      (none, none, [], true, args.length,
       some "STREAMS must be followed by keys and their corresponding IDs") := by
    rw [fromArgsLoop]
    rw [if_pos (by omega)]
    have hget0 : args.getD 0 "" = "STREAMS" := rfl
    rw [hget0]
    rw [show asciiLower "STREAMS" = "streams" from rfl]
    rw [if_neg (by decide), if_neg (by decide), if_pos rfl]
    simp only [hc]
    rw [if_pos (Or.inr (by omega))]
  constructor
  · unfold fromArgs
    simp only [hloop]
    rfl
  · intro db
    unfold handleXread fromArgs
    simp only [hloop]
    rfl

/-- C10 witness: the theorem at the concrete command
XREAD STREAMS k1 k2 1-1 2-2. -/
theorem c10_xread_wellformed_errors_witness :
    (fromArgs ["STREAMS", "k1", "k2", "1-1", "2-2"]).2.2 =
      some "STREAMS must be followed by keys and their corresponding IDs" ∧
    handleXread ["STREAMS", "k1", "k2", "1-1", "2-2"] [] =
      "-ERR STREAMS must be followed by keys and their corresponding IDs\r\n" := by
  have h := c10_xread_wellformed_errors ["k1", "k2"] ["1-1", "2-2"]
    (by decide) (by decide)
    (by
      intro x hx
      fin_cases hx <;> exact ⟨by decide, by decide, by decide⟩)
  exact ⟨h.1, h.2 []⟩

/-! ## C2: Request::try_parse (request.rs lines 7-41)

The parser runs String::from_utf8_lossy over the byte buffer and splits the
resulting string on "\r\n"; the embedding works on the byte level (a buffer
is a List Nat of bytes) and therefore coincides with the source only where
the lossy conversion leaves both the bytes and the per-line str::len byte
counts unchanged.  That is exactly the domain the C2 theorems quantify
over: every hypothesis below restricts the bulk-string payloads to ASCII
bytes (b < 128), on which from_utf8_lossy is the identity and str::len is
the byte count.  (A payload with invalid UTF-8 — e.g. a lone 0xFF byte —
is re-encoded as U+FFFD, three bytes, so the source's consumed_bytes then
exceeds the frame length; such buffers are outside the theorems' domain.)
The arbitrary suffix in the success theorem needs no such restriction: the
frame region is ASCII, every one of its bytes decodes as one complete
character no matter what follows, and the parser stops after the frame's
1+2N lines, before any suffix-derived line is touched. -/

/-- Rust str::split("\r\n").collect(): greedy left-to-right split on the
byte pair 13 10, keeping a trailing empty piece. -/
def splitCRLF : List Nat → List (List Nat)
  | [] => [[]]
  | [b] => [[b]]
  | b1 :: b2 :: rest =>
      if b1 = 13 ∧ b2 = 10 then [] :: splitCRLF rest
      else
        match splitCRLF (b2 :: rest) with
        | h :: t => (b1 :: h) :: t
        | [] => [[b1]]

/-- Digit fold over bytes (none on a non-digit byte). -/
def digitsToNatB : List Nat → Nat → Option Nat
  | [], acc => some acc
  | b :: rest, acc =>
      if 48 ≤ b ∧ b ≤ 57 then digitsToNatB rest (acc * 10 + (b - 48))
      else none

/-- Rust usize::from_str on a byte line: optional '+' (43), then one or
more ASCII digits, error past 2^64-1. -/
def parseUsizeBytes (l : List Nat) : Option Nat :=
  let l' := if l.headD 0 = 43 then l.tail else l
  match l' with
  | [] => none
  | _ =>
      match digitsToNatB l' 0 with
      | some n => if n < U64 then some n else none
      | none => none

/-- The for loop of try_parse: consume num_args (length line, value line)
pairs, returning the argument vector and the bytes the loop accounted
for. -/
def tryParseArgsLoop : Nat → List (List Nat) → Option (List (List Nat) × Nat)
  | 0, _ => some ([], 0)
  | n + 1, lines =>
      match lines with
      | [] => none
      | lenLine :: rest1 =>
          if lenLine.headD 0 ≠ 36 then none
          else
            match parseUsizeBytes lenLine.tail with
            | none => none
            | some len =>
                match rest1 with
                | [] => none
                | value :: rest2 =>
                    if value.length < len then none
                    else
                      match tryParseArgsLoop n rest2 with
                      | some (args, c) =>
                          some (value :: args,
                                lenLine.length + 2 + value.length + 2 + c)
                      | none => none

/-- request.rs Request::try_parse, at the byte level: faithful to the
source's from_utf8_lossy + str pipeline on the ASCII buffers the C2
theorems quantify over (see the section comment above). -/
def tryParse (buffer : List Nat) : Option (List (List Nat) × Nat) :=
  match splitCRLF buffer with
  | [] => none
  | header :: rest =>
      if header.headD 0 ≠ 42 then none
      else
        match parseUsizeBytes header.tail with
        | none => none
        | some numArgs =>
            match tryParseArgsLoop numArgs rest with
            | some (args, c) => some (args, header.length + 2 + c)
            | none => none

/-- Canonical decimal digit bytes of a number (fuel-based for kernel
evaluation; fuel n+1 always suffices). -/
def toDigitsGo : Nat → Nat → List Nat
  | 0, _ => []
  | fuel + 1, n =>
      if n < 10 then [48 + n]
      else toDigitsGo fuel (n / 10) ++ [48 + n % 10]

def natDigitsB (n : Nat) : List Nat := toDigitsGo (n + 1) n

/-- The byte-exact frame of a *N array of bulk strings, per the RESP
grammar of spec section 4.1; this is the quantification domain of C2. -/
def encodeArg (a : List Nat) : List Nat :=
  36 :: natDigitsB a.length ++ [13, 10] ++ a ++ [13, 10]

def encodeBody (args : List (List Nat)) : List Nat :=
  (args.map encodeArg).flatten

def encodeFrame (args : List (List Nat)) : List Nat :=
  42 :: natDigitsB args.length ++ [13, 10] ++ encodeBody args

lemma digitsToNatB_append (l1 l2 : List Nat) (acc : Nat) :
    digitsToNatB (l1 ++ l2) acc =
      match digitsToNatB l1 acc with
      | some acc' => digitsToNatB l2 acc'
      | none => none := by
  induction l1 generalizing acc with
  | nil => rfl
  | cons b rest ih =>
      simp only [List.cons_append, digitsToNatB]
      by_cases h : 48 ≤ b ∧ b ≤ 57
      · rw [if_pos h, if_pos h]
        exact ih _
      · rw [if_neg h, if_neg h]

lemma digitsToNatB_singleton (b acc : Nat) (h : 48 ≤ b ∧ b ≤ 57) :
    digitsToNatB [b] acc = some (acc * 10 + (b - 48)) := by
  show (if 48 ≤ b ∧ b ≤ 57 then digitsToNatB [] (acc * 10 + (b - 48)) else none) =
    some (acc * 10 + (b - 48))
  rw [if_pos h]
  rfl

lemma toDigitsGo_spec : ∀ fuel n, n < fuel →
    (∀ b ∈ toDigitsGo fuel n, 48 ≤ b ∧ b ≤ 57) ∧
    toDigitsGo fuel n ≠ [] ∧
    ∀ acc, digitsToNatB (toDigitsGo fuel n) acc =
      some (acc * 10 ^ (toDigitsGo fuel n).length + n) := by
  intro fuel
  induction fuel with
  | zero => intro n h; omega
  | succ fuel ih =>
      intro n h
      by_cases hn : n < 10
      · rw [toDigitsGo, if_pos hn]
        refine ⟨by intro b hb; simp at hb; omega, by simp, ?_⟩
        intro acc
        rw [digitsToNatB_singleton _ _ (by omega)]
        simp only [List.length_singleton, pow_one]
        congr 1
        omega
      · rw [toDigitsGo, if_neg hn]
        have hd : n / 10 < fuel := by
          have h1 : n / 10 < n := Nat.div_lt_self (by omega) (by norm_num)
          omega
        obtain ⟨hrange, hne, hval⟩ := ih (n / 10) hd
        refine ⟨?_, by simp, ?_⟩
        · intro b hb
          rw [List.mem_append] at hb
          rcases hb with hb | hb
          · exact hrange b hb
          · simp at hb
            have : n % 10 < 10 := Nat.mod_lt _ (by norm_num)
            omega
        · intro acc
          rw [digitsToNatB_append, hval acc]
          show digitsToNatB [48 + n % 10]
              (acc * 10 ^ (toDigitsGo fuel (n / 10)).length + n / 10) = _
          rw [digitsToNatB_singleton _ _
            (by have : n % 10 < 10 := Nat.mod_lt _ (by norm_num); omega)]
          congr 1
          rw [List.length_append, List.length_singleton, pow_succ]
          have e : 48 + n % 10 - 48 = n % 10 := by omega
          rw [e]
          have hdm : n / 10 * 10 + n % 10 = n := Nat.div_add_mod' n 10
          ring_nf
          ring_nf at hdm ⊢
          omega

lemma natDigitsB_spec (n : Nat) :
    (∀ b ∈ natDigitsB n, 48 ≤ b ∧ b ≤ 57) ∧
    natDigitsB n ≠ [] ∧
    digitsToNatB (natDigitsB n) 0 = some n := by
  obtain ⟨h1, h2, h3⟩ := toDigitsGo_spec (n + 1) n (by omega)
  exact ⟨h1, h2, by rw [natDigitsB, h3 0]; simp⟩

lemma parseUsizeBytes_digits (n : Nat) (hn : n < U64) :
    parseUsizeBytes (natDigitsB n) = some n := by
  obtain ⟨h1, h2, h3⟩ := natDigitsB_spec n
  cases hd : natDigitsB n with
  | nil => exact absurd hd h2
  | cons b rest =>
      have hb : 48 ≤ b ∧ b ≤ 57 := h1 b (by rw [hd]; simp)
      rw [hd] at h3
      unfold parseUsizeBytes
      rw [if_neg (by simp only [List.headD_cons]; omega)]
      show (match digitsToNatB (b :: rest) 0 with
            | some m => if m < U64 then some m else none
            | none => none) = some n
      rw [h3]
      show (if n < U64 then some n else none) = some n
      rw [if_pos hn]

/-- No CRLF pair anywhere in the list. -/
def noPair : List Nat → Prop
  | [] => True
  | [_] => True
  | b1 :: b2 :: rest => ¬ (b1 = 13 ∧ b2 = 10) ∧ noPair (b2 :: rest)

lemma noPair_of_no13 : ∀ l : List Nat, (∀ b ∈ l, b ≠ 13) → noPair l := by
  intro l
  induction l with
  | nil => intro _; trivial
  | cons b tail ih =>
      intro h
      cases tail with
      | nil => trivial
      | cons c rest =>
          exact ⟨fun hc => h b (by simp) hc.1,
                 ih (fun x hx => h x (by simp [hx]))⟩

lemma noPair_append13 : ∀ l : List Nat, (∀ b ∈ l, b ≠ 13) →
    noPair (l ++ [13]) := by
  intro l
  induction l with
  | nil => intro _; trivial
  | cons b tail ih =>
      intro h
      cases tail with
      | nil =>
          exact ⟨fun hc => by omega, trivial⟩
      | cons c rest =>
          exact ⟨fun hc => h b (by simp) hc.1,
                 ih (fun x hx => h x (by simp [hx]))⟩

lemma splitCRLF_single : ∀ l : List Nat, noPair l → splitCRLF l = [l] := by
  intro l
  induction l with
  | nil => intro _; rfl
  | cons b tail ih =>
      intro h
      cases tail with
      | nil => rfl
      | cons c rest =>
          obtain ⟨h1, h2⟩ := h
          rw [splitCRLF, if_neg h1, ih h2]

lemma splitCRLF_line : ∀ l rest : List Nat, (∀ b ∈ l, b ≠ 13) →
    splitCRLF (l ++ 13 :: 10 :: rest) = l :: splitCRLF rest := by
  intro l
  induction l with
  | nil =>
      intro rest _
      rw [List.nil_append, splitCRLF, if_pos ⟨rfl, rfl⟩]
  | cons b tail ih =>
      intro rest h
      have hb : b ≠ 13 := h b (by simp)
      cases tail with
      | nil =>
          rw [List.cons_append, List.nil_append, splitCRLF,
            if_neg (fun hc => by omega)]
          rw [show splitCRLF (13 :: 10 :: rest) = [] :: splitCRLF rest from by
            rw [splitCRLF, if_pos ⟨rfl, rfl⟩]]
      | cons c ts =>
          have hrec := ih rest (fun x hx => h x (by simp [hx]))
          rw [List.cons_append, List.cons_append, splitCRLF,
            if_neg (fun hc => hb hc.1)]
          rw [show c :: (ts ++ 13 :: 10 :: rest) = (c :: ts) ++ 13 :: 10 :: rest
            from rfl, hrec]

lemma encodeArg_length (a : List Nat) :
    (encodeArg a).length = 1 + (natDigitsB a.length).length + 2 + a.length + 2 := by
  simp [encodeArg]
  omega

lemma tryParseArgsLoop_encode :
    ∀ (args : List (List Nat)) (suffix : List Nat),
      (∀ a ∈ args, a.length < U64 ∧ ∀ b ∈ a, b ≠ 13) →
      tryParseArgsLoop args.length (splitCRLF (encodeBody args ++ suffix)) =
        some (args, (encodeBody args).length) := by
  intro args
  induction args with
  | nil => intro suffix _; rfl
  | cons a rest ih =>
      intro suffix hwf
      obtain ⟨halen, hacr⟩ := hwf a (by simp)
      have hdig := natDigitsB_spec a.length
      have hsplit : splitCRLF (encodeBody (a :: rest) ++ suffix) =
          (36 :: natDigitsB a.length) :: a ::
            splitCRLF (encodeBody rest ++ suffix) := by
        show splitCRLF ((encodeArg a ++ encodeBody rest) ++ suffix) = _
        rw [List.append_assoc]
        have h1 : encodeArg a ++ (encodeBody rest ++ suffix) =
            (36 :: natDigitsB a.length) ++
              13 :: 10 :: (a ++ 13 :: 10 :: (encodeBody rest ++ suffix)) := by
          simp [encodeArg]
        rw [h1, splitCRLF_line _ _ (by
          intro b hb
          simp at hb
          rcases hb with hb | hb
          · omega
          · have := (hdig.1) b hb
            omega)]
        rw [splitCRLF_line _ _ hacr]
      rw [hsplit]
      show tryParseArgsLoop (rest.length + 1) _ = _
      rw [tryParseArgsLoop]
      simp only [List.headD_cons]
      rw [if_neg (by omega)]
      show (match parseUsizeBytes (natDigitsB a.length) with
            | none => none
            | some len =>
                match a :: splitCRLF (encodeBody rest ++ suffix) with
                | [] => none
                | value :: rest2 =>
                    if value.length < len then none
                    else
                      match tryParseArgsLoop rest.length rest2 with
                      | some (args, c) =>
                          some (value :: args,
                                (36 :: natDigitsB a.length).length + 2 +
                                  value.length + 2 + c)
                      | none => none) = _
      rw [parseUsizeBytes_digits a.length halen]
      show (if a.length < a.length then none
            else
              match tryParseArgsLoop rest.length
                  (splitCRLF (encodeBody rest ++ suffix)) with
              | some (args, c) =>
                  some (a :: args,
                        (36 :: natDigitsB a.length).length + 2 + a.length + 2 + c)
              | none => none) = _
      rw [if_neg (lt_irrefl _)]
      rw [ih suffix (fun x hx => hwf x (by simp [hx]))]
      show some (a :: rest,
        (36 :: natDigitsB a.length).length + 2 + a.length + 2 +
          (encodeBody rest).length) = _
      congr 1
      rw [Prod.mk.injEq]
      refine ⟨rfl, ?_⟩
      have hb : (encodeBody (a :: rest)).length =
          (encodeArg a).length + (encodeBody rest).length := by
        show ((encodeArg a ++ encodeBody rest)).length = _
        simp
      rw [hb, encodeArg_length]
      simp only [List.length_cons]
      omega

lemma tryParse_encode (args : List (List Nat)) (suffix : List Nat)
    (hn : args.length < U64)
    (hwf : ∀ a ∈ args, a.length < U64 ∧ ∀ b ∈ a, b ≠ 13) :
    tryParse (encodeFrame args ++ suffix) =
      some (args, (encodeFrame args).length) := by
  have hdig := natDigitsB_spec args.length
  have hsplit : splitCRLF (encodeFrame args ++ suffix) =
      (42 :: natDigitsB args.length) :: splitCRLF (encodeBody args ++ suffix) := by
    have h1 : encodeFrame args ++ suffix =
        (42 :: natDigitsB args.length) ++
          13 :: 10 :: (encodeBody args ++ suffix) := by
      simp [encodeFrame]
    rw [h1, splitCRLF_line _ _ (by
      intro b hb
      simp at hb
      rcases hb with hb | hb
      · omega
      · have := hdig.1 b hb
        omega)]
  unfold tryParse
  rw [hsplit]
  simp only [List.headD_cons]
  rw [if_neg (by omega)]
  show (match parseUsizeBytes (natDigitsB args.length) with
        | none => none
        | some numArgs =>
            match tryParseArgsLoop numArgs (splitCRLF (encodeBody args ++ suffix)) with
            | some (as, c) =>
                some (as, (42 :: natDigitsB args.length).length + 2 + c)
            | none => none) = _
  rw [parseUsizeBytes_digits args.length hn]
  show (match tryParseArgsLoop args.length (splitCRLF (encodeBody args ++ suffix)) with
        | some (as, c) =>
            some (as, (42 :: natDigitsB args.length).length + 2 + c)
        | none => none) = _
  rw [tryParseArgsLoop_encode args suffix hwf]
  show some (args, (42 :: natDigitsB args.length).length + 2 +
    (encodeBody args).length) = _
  congr 1
  rw [Prod.mk.injEq]
  refine ⟨rfl, ?_⟩
  show (42 :: natDigitsB args.length).length + 2 + (encodeBody args).length =
    (42 :: (natDigitsB args.length ++ [13, 10] ++ encodeBody args)).length
  simp only [List.length_cons, List.length_append, List.length_nil]
  omega

lemma digitsToNatB_append13 : ∀ (l : List Nat) (acc : Nat),
    digitsToNatB (l ++ [13]) acc = none := by
  intro l
  induction l with
  | nil => intro acc; rfl
  | cons b rest ih =>
      intro acc
      show (if 48 ≤ b ∧ b ≤ 57 then digitsToNatB (rest ++ [13]) (acc * 10 + (b - 48))
            else none) = none
      split
      · exact ih _
      · rfl

lemma digitsToNatB_ge : ∀ (l : List Nat) (acc v : Nat),
    digitsToNatB l acc = some v → acc ≤ v := by
  intro l
  induction l with
  | nil =>
      intro acc v h
      injection h with h
      omega
  | cons b rest ih =>
      intro acc v h
      rw [show digitsToNatB (b :: rest) acc =
          (if 48 ≤ b ∧ b ≤ 57 then digitsToNatB rest (acc * 10 + (b - 48))
           else none) from rfl] at h
      split at h
      · have := ih _ _ h
        omega
      · exact Option.noConfusion h

/-- The leading digit byte of a positive number is at least '1'. -/
lemma toDigitsGo_head_pos : ∀ fuel n, n < fuel → 1 ≤ n →
    49 ≤ (toDigitsGo fuel n).headD 0 := by
  intro fuel
  induction fuel with
  | zero => intro n h; omega
  | succ fuel ih =>
      intro n h hn
      by_cases h10 : n < 10
      · rw [show toDigitsGo (fuel + 1) n = if n < 10 then [48 + n]
            else toDigitsGo fuel (n / 10) ++ [48 + n % 10] from rfl, if_pos h10]
        simp only [List.headD_cons]
        omega
      · rw [show toDigitsGo (fuel + 1) n = if n < 10 then [48 + n]
            else toDigitsGo fuel (n / 10) ++ [48 + n % 10] from rfl, if_neg h10]
        have hne := (toDigitsGo_spec fuel (n / 10) (by omega)).2.1
        have hhead := ih (n / 10) (by omega) (by omega)
        cases hd : toDigitsGo fuel (n / 10) with
        | nil => exact absurd hd hne
        | cons x t =>
            rw [hd] at hhead
            simpa using hhead

lemma natDigitsB_head_pos (n : Nat) (hn : 1 ≤ n) :
    49 ≤ (natDigitsB n).headD 0 :=
  toDigitsGo_head_pos (n + 1) n (by omega) hn

lemma tryParseArgsLoop_nil (n : Nat) : tryParseArgsLoop (n + 1) [] = none := rfl

lemma tryParseArgsLoop_one (n : Nat) (line : List Nat) :
    tryParseArgsLoop (n + 1) [line] = none := by
  show (if line.headD 0 ≠ 36 then none
        else match parseUsizeBytes line.tail with
          | none => none
          | some _ => none) = (none : Option (List (List Nat) × Nat))
  split
  · rfl
  · cases hp : parseUsizeBytes line.tail <;> rfl

lemma tryParseArgsLoop_two (n : Nat) (a value : List Nat)
    (rest2 : List (List Nat)) (hA : a.length < U64) :
    tryParseArgsLoop (n + 1) ((36 :: natDigitsB a.length) :: value :: rest2) =
      if value.length < a.length then none
      else
        match tryParseArgsLoop n rest2 with
        | some (args2, c) =>
            some (value :: args2,
                  (36 :: natDigitsB a.length).length + 2 + value.length + 2 + c)
        | none => none := by
  show (if (36 :: natDigitsB a.length).headD 0 ≠ 36 then none
        else
          match parseUsizeBytes (36 :: natDigitsB a.length).tail with
          | none => none
          | some len =>
              if value.length < len then none
              else
                match tryParseArgsLoop n rest2 with
                | some (args2, c) =>
                    some (value :: args2,
                          (36 :: natDigitsB a.length).length + 2 +
                            value.length + 2 + c)
                | none => none) = _
  rw [if_neg (by simp only [List.headD_cons]; omega)]
  show (match parseUsizeBytes (natDigitsB a.length) with
        | none => none
        | some len =>
            if value.length < len then none
            else
              match tryParseArgsLoop n rest2 with
              | some (args2, c) =>
                  some (value :: args2,
                        (36 :: natDigitsB a.length).length + 2 +
                          value.length + 2 + c)
              | none => none) = _
  rw [parseUsizeBytes_digits a.length hA]

lemma take_line_cr (L Z : List Nat) :
    (L ++ 13 :: 10 :: Z).take (L.length + 1) = L ++ [13] := by
  rw [List.take_append_eq_append_take,
    List.take_of_length_le (by omega)]
  congr 1
  rw [show L.length + 1 - L.length = 1 from by omega]
  rfl

lemma take_line_crlf (L Z : List Nat) (i : Nat) :
    (L ++ 13 :: 10 :: Z).take (L.length + 2 + i) =
      L ++ 13 :: 10 :: Z.take i := by
  rw [List.take_append_eq_append_take,
    List.take_of_length_le (by omega)]
  congr 1
  rw [show L.length + 2 + i - L.length = i + 2 from by omega]
  rfl

lemma prefixLoop_none : ∀ (args : List (List Nat)) (j : Nat),
    args ≠ [] →
    (∀ a ∈ args, a.length < U64 ∧ ∀ b ∈ a, b ≠ 13) →
    j + 3 ≤ (encodeBody args).length →
    tryParseArgsLoop args.length (splitCRLF ((encodeBody args).take j)) =
      none := by
  intro args
  induction args with
  | nil => intro j hne _ _; exact absurd rfl hne
  | cons a rest ih =>
      intro j _ hwf hj
      obtain ⟨hA, hacr⟩ := hwf a (by simp)
      have hdig := natDigitsB_spec a.length
      have hDcr : ∀ b ∈ 36 :: natDigitsB a.length, b ≠ 13 := by
        intro b hb
        simp at hb
        rcases hb with hb | hb
        · omega
        · have := hdig.1 b hb
          omega
      have hshape : encodeBody (a :: rest) =
          (36 :: natDigitsB a.length) ++
            13 :: 10 :: (a ++ 13 :: 10 :: encodeBody rest) := by
        show encodeArg a ++ encodeBody rest = _
        simp [encodeArg]
      have hlenB : (encodeBody (a :: rest)).length =
          (natDigitsB a.length).length + a.length + 5 +
            (encodeBody rest).length := by
        rw [hshape]
        simp
        omega
      rw [hlenB] at hj
      simp only [List.length_cons]
      rcases Nat.lt_or_ge j ((natDigitsB a.length).length + 2) with h1 | h1
      · -- the cut falls inside the length line: a single CRLF-free line
        rw [hshape, List.take_append_of_le_length (by simp; omega),
          splitCRLF_single _ (noPair_of_no13 _
            (fun b hb => hDcr b (List.mem_of_mem_take hb)))]
        exact tryParseArgsLoop_one rest.length _
      rcases Nat.lt_or_ge j ((natDigitsB a.length).length + 3) with h2 | h2
      · -- the cut keeps the CR of the length line but not the LF
        have hj2 : j = (36 :: natDigitsB a.length).length + 1 := by
          simp
          omega
        rw [hshape, hj2, take_line_cr,
          splitCRLF_single _ (noPair_append13 _ hDcr)]
        exact tryParseArgsLoop_one rest.length _
      obtain ⟨i, rfl⟩ : ∃ i, j = (natDigitsB a.length).length + 3 + i :=
        ⟨j - ((natDigitsB a.length).length + 3), by omega⟩
      have hj3 : (natDigitsB a.length).length + 3 + i =
          (36 :: natDigitsB a.length).length + 2 + i := by
        simp only [List.length_cons]
      rw [hshape, hj3, take_line_crlf, splitCRLF_line _ _ hDcr]
      rcases Nat.lt_or_ge i (a.length + 1) with h3 | h3
      · -- the cut falls inside the value bytes (or right after the length
        -- line's CRLF): the value line is a strict prefix of the value, or
        -- the full value with no further line
        rw [List.take_append_of_le_length (by omega),
          splitCRLF_single _ (noPair_of_no13 _
            (fun b hb => hacr b (List.mem_of_mem_take hb))),
          tryParseArgsLoop_two rest.length a _ [] hA]
        by_cases hiA : i < a.length
        · rw [if_pos (by simp [List.length_take]; omega)]
        · have hieq : i = a.length := by omega
          subst hieq
          rw [List.take_length, if_neg (lt_irrefl _)]
          cases rest with
          | nil =>
              have h0 : (encodeBody ([] : List (List Nat))).length = 0 := rfl
              omega
          | cons r rs =>
              simp only [List.length_cons]
              rw [tryParseArgsLoop_nil rs.length]
      rcases Nat.lt_or_ge i (a.length + 2) with h4 | h4
      · -- the cut keeps the value's CR but not its LF
        have hieq : i = a.length + 1 := by omega
        subst hieq
        rw [take_line_cr,
          splitCRLF_single _ (noPair_append13 _ hacr),
          tryParseArgsLoop_two rest.length a _ [] hA]
        rw [if_neg (by
          simp only [List.length_append, List.length_cons, List.length_nil]
          omega)]
        cases rest with
        | nil =>
            have h0 : (encodeBody ([] : List (List Nat))).length = 0 := rfl
            omega
        | cons r rs =>
            simp only [List.length_cons]
            rw [tryParseArgsLoop_nil rs.length]
      · -- the cut falls past this argument's trailing CRLF: recurse
        obtain ⟨i2, rfl⟩ : ∃ i2, i = a.length + 2 + i2 :=
          ⟨i - (a.length + 2), by omega⟩
        rw [take_line_crlf, splitCRLF_line _ _ hacr,
          tryParseArgsLoop_two rest.length a _ _ hA]
        rw [if_neg (lt_irrefl _)]
        cases rest with
        | nil =>
            have h0 : (encodeBody ([] : List (List Nat))).length = 0 := rfl
            omega
        | cons r rs =>
            rw [ih i2 (by simp) (fun x hx => hwf x (by simp [hx]))
              (by
                have hlen : (encodeBody (r :: rs)).length =
                    (encodeBody (r :: rs)).length := rfl
                omega)]

lemma parseUsizeBytes_pos (l : List Nat) (m : Nat) (hh : 49 ≤ l.headD 0)
    (hp : parseUsizeBytes l = some m) : 1 ≤ m := by
  cases l with
  | nil => exact Option.noConfusion hp
  | cons b t =>
      simp only [List.headD_cons] at hh
      unfold parseUsizeBytes at hp
      rw [if_neg (by simp only [List.headD_cons]; omega)] at hp
      revert hp
      show (match digitsToNatB (b :: t) 0 with
            | some n => if n < U64 then some n else none
            | none => none) = some m → 1 ≤ m
      intro hp
      by_cases hb : 48 ≤ b ∧ b ≤ 57
      · have hstep : digitsToNatB (b :: t) 0 =
            digitsToNatB t (0 * 10 + (b - 48)) := by
          rw [show digitsToNatB (b :: t) 0 =
            (if 48 ≤ b ∧ b ≤ 57 then digitsToNatB t (0 * 10 + (b - 48))
             else none) from rfl, if_pos hb]
        rw [hstep] at hp
        cases hd : digitsToNatB t (0 * 10 + (b - 48)) with
        | none => rw [hd] at hp; exact Option.noConfusion hp
        | some v =>
            rw [hd] at hp
            have hge := digitsToNatB_ge _ _ _ hd
            split at hp
            next e heq =>
              injection heq with heq
              subst heq
              split at hp
              · injection hp with hp
                omega
              · exact Option.noConfusion hp
            next heq => exact Option.noConfusion heq
      · have hnone : digitsToNatB (b :: t) 0 = none := by
          rw [show digitsToNatB (b :: t) 0 =
            (if 48 ≤ b ∧ b ≤ 57 then digitsToNatB t (0 * 10 + (b - 48))
             else none) from rfl, if_neg hb]
        rw [hnone] at hp
        exact Option.noConfusion hp

lemma parseUsizeBytes_append13 (l : List Nat) (hh : 48 ≤ l.headD 0)
    (hne : l ≠ []) : parseUsizeBytes (l ++ [13]) = none := by
  cases l with
  | nil => exact absurd rfl hne
  | cons b t =>
      simp only [List.headD_cons] at hh
      unfold parseUsizeBytes
      rw [if_neg (by
        simp only [List.cons_append, List.headD_cons]
        omega)]
      show (match digitsToNatB ((b :: t) ++ [13]) 0 with
            | some n => if n < U64 then some n else none
            | none => none) = none
      rw [digitsToNatB_append13]

/-- Truncating a well-formed frame by at least three bytes (cutting before
the final value line is complete) makes try_parse return None. -/
lemma tryParse_prefix_none (args : List (List Nat)) (k : Nat)
    (hn : args.length < U64)
    (hwf : ∀ a ∈ args, a.length < U64 ∧ ∀ b ∈ a, b ≠ 13)
    (hk : k + 3 ≤ (encodeFrame args).length) :
    tryParse ((encodeFrame args).take k) = none := by
  by_cases hargs : args = []
  · subst hargs
    have h4 : (encodeFrame ([] : List (List Nat))).length = 4 := rfl
    rcases k with _ | _ | k
    · decide
    · decide
    · omega
  have hpos : 1 ≤ args.length := List.length_pos.mpr hargs
  have hdig := natDigitsB_spec args.length
  have hhead49 : 49 ≤ (natDigitsB args.length).headD 0 :=
    natDigitsB_head_pos _ hpos
  have hDcr : ∀ b ∈ 42 :: natDigitsB args.length, b ≠ 13 := by
    intro b hb
    simp at hb
    rcases hb with hb | hb
    · omega
    · have := hdig.1 b hb
      omega
  have hshape : encodeFrame args =
      (42 :: natDigitsB args.length) ++ 13 :: 10 :: encodeBody args := by
    simp [encodeFrame]
  have hflen : (encodeFrame args).length =
      (natDigitsB args.length).length + 3 + (encodeBody args).length := by
    rw [hshape]
    simp
    omega
  rw [hflen] at hk
  rcases Nat.eq_zero_or_pos k with hk0 | hk0
  · subst hk0
    rw [List.take_zero]
    decide
  rcases Nat.lt_or_ge k ((natDigitsB args.length).length + 2) with h1 | h1
  · -- the cut falls inside the "*N" header line
    obtain ⟨k2, rfl⟩ : ∃ k2, k = k2 + 1 := ⟨k - 1, by omega⟩
    rw [hshape, List.take_append_of_le_length (by simp; omega)]
    unfold tryParse
    rw [splitCRLF_single _ (noPair_of_no13 _
      (fun b hb => hDcr b (List.mem_of_mem_take hb)))]
    show (if ((42 :: natDigitsB args.length).take (k2 + 1)).headD 0 ≠ 42
          then none
          else
            match parseUsizeBytes
                ((42 :: natDigitsB args.length).take (k2 + 1)).tail with
            | none => none
            | some numArgs =>
                match tryParseArgsLoop numArgs [] with
                | some (as, c) =>
                    some (as,
                      ((42 :: natDigitsB args.length).take (k2 + 1)).length +
                        2 + c)
                | none => none) = none
    rw [List.take_succ_cons]
    simp only [List.headD_cons, List.tail_cons]
    rw [if_neg (by simp)]
    cases hp : parseUsizeBytes ((natDigitsB args.length).take k2) with
    | none => rfl
    | some m =>
        rcases Nat.eq_zero_or_pos k2 with hk2 | hk2
        · subst hk2
          rw [List.take_zero] at hp
          exact Option.noConfusion hp
        have hm : 1 ≤ m := by
          refine parseUsizeBytes_pos _ _ ?_ hp
          obtain ⟨k3, rfl⟩ : ∃ k3, k2 = k3 + 1 := ⟨k2 - 1, by omega⟩
          cases hD : natDigitsB args.length with
          | nil => exact absurd hD hdig.2.1
          | cons b t =>
              rw [hD] at hhead49
              rw [List.take_succ_cons]
              simpa using hhead49
        cases m with
        | zero => omega
        | succ m2 =>
            show (match tryParseArgsLoop (m2 + 1) [] with
                  | some (as, c) =>
                      some (as,
                        (42 :: (natDigitsB args.length).take k2).length + 2 + c)
                  | none => none) = none
            rw [tryParseArgsLoop_nil m2]
  rcases Nat.lt_or_ge k ((natDigitsB args.length).length + 3) with h2 | h2
  · -- the cut keeps the header's CR but not its LF
    have hkeq : k = (42 :: natDigitsB args.length).length + 1 := by
      simp
      omega
    rw [hshape, hkeq, take_line_cr]
    unfold tryParse
    rw [splitCRLF_single _ (noPair_append13 _ hDcr)]
    show (if ((42 :: natDigitsB args.length) ++ [13]).headD 0 ≠ 42
          then none
          else
            match parseUsizeBytes
                ((42 :: natDigitsB args.length) ++ [13]).tail with
            | none => none
            | some numArgs =>
                match tryParseArgsLoop numArgs [] with
                | some (as, c) =>
                    some (as,
                      ((42 :: natDigitsB args.length) ++ [13]).length + 2 + c)
                | none => none) = none
    rw [if_neg (by simp)]
    simp only [List.cons_append, List.tail_cons]
    rw [parseUsizeBytes_append13 _ (by
        cases hD : natDigitsB args.length with
        | nil => exact absurd hD hdig.2.1
        | cons b t =>
            have := hdig.1 b (by rw [hD]; simp)
            simp only [List.headD_cons]
            omega)
      hdig.2.1]
  · -- the cut falls inside the body: the header parses, the loop fails
    obtain ⟨j, rfl⟩ : ∃ j, k = (natDigitsB args.length).length + 3 + j :=
      ⟨k - ((natDigitsB args.length).length + 3), by omega⟩
    have hkeq : (natDigitsB args.length).length + 3 + j =
        (42 :: natDigitsB args.length).length + 2 + j := by
      simp only [List.length_cons]
    rw [hshape, hkeq, take_line_crlf]
    unfold tryParse
    rw [splitCRLF_line _ _ hDcr]
    show (if (42 :: natDigitsB args.length).headD 0 ≠ 42 then none
          else
            match parseUsizeBytes (42 :: natDigitsB args.length).tail with
            | none => none
            | some numArgs =>
                match tryParseArgsLoop numArgs
                    (splitCRLF ((encodeBody args).take j)) with
                | some (as, c) =>
                    some (as, (42 :: natDigitsB args.length).length + 2 + c)
                | none => none) = none
    rw [if_neg (by simp)]
    simp only [List.tail_cons]
    rw [parseUsizeBytes_digits args.length hn]
    show (match tryParseArgsLoop args.length
            (splitCRLF ((encodeBody args).take j)) with
          | some (as, c) =>
              some (as, (42 :: natDigitsB args.length).length + 2 + c)
          | none => none) = none
    rw [prefixLoop_none args j hargs hwf (by omega)]

lemma take_dropEnd2 (X : List Nat) (c d : Nat) :
    (X ++ [c, d]).take ((X ++ [c, d]).length - 2) = X := by
  have h : (X ++ [c, d]).length - 2 = X.length := by simp
  rw [h, List.take_append_of_le_length (le_refl _), List.take_length]

lemma encodeBody_split : ∀ (args : List (List Nat)), args ≠ [] →
    (∀ a ∈ args, a.length < U64 ∧ ∀ b ∈ a, b ≠ 13) →
    ∃ T, encodeBody args = T ++ [13, 10] ∧
      tryParseArgsLoop args.length (splitCRLF T) =
        some (args, (encodeBody args).length) := by
  intro args
  induction args with
  | nil => intro hne _; exact absurd rfl hne
  | cons a rest ih =>
      intro _ hwf
      obtain ⟨hA, hacr⟩ := hwf a (by simp)
      have hdig := natDigitsB_spec a.length
      have hDcr : ∀ b ∈ 36 :: natDigitsB a.length, b ≠ 13 := by
        intro b hb
        simp at hb
        rcases hb with hb | hb
        · omega
        · have := hdig.1 b hb
          omega
      cases rest with
      | nil =>
          refine ⟨(36 :: natDigitsB a.length) ++ 13 :: 10 :: a, ?_, ?_⟩
          · show encodeArg a ++ encodeBody [] = _
            rw [show encodeBody ([] : List (List Nat)) = [] from rfl]
            simp [encodeArg]
          · rw [splitCRLF_line _ _ hDcr,
              splitCRLF_single a (noPair_of_no13 a hacr)]
            simp only [List.length_cons, List.length_nil]
            rw [tryParseArgsLoop_two 0 a a [] hA, if_neg (lt_irrefl _)]
            show some (a :: [],
              (36 :: natDigitsB a.length).length + 2 + a.length + 2 + 0) =
              some ([a], (encodeBody [a]).length)
            congr 1
            rw [Prod.mk.injEq]
            refine ⟨rfl, ?_⟩
            have hLen : (encodeBody [a]).length = (encodeArg a).length := by
              show (encodeArg a ++ []).length = _
              simp
            rw [hLen, encodeArg_length]
            simp only [List.length_cons]
            omega
      | cons r rs =>
          obtain ⟨T2, hT2, hloop2⟩ :=
            ih (by simp) (fun x hx => hwf x (by simp [hx]))
          refine ⟨encodeArg a ++ T2, ?_, ?_⟩
          · show encodeArg a ++ encodeBody (r :: rs) = _
            rw [hT2, ← List.append_assoc]
          · have hTshape : encodeArg a ++ T2 =
                (36 :: natDigitsB a.length) ++
                  13 :: 10 :: (a ++ 13 :: 10 :: T2) := by
              simp [encodeArg]
            rw [hTshape, splitCRLF_line _ _ hDcr, splitCRLF_line _ _ hacr]
            simp only [List.length_cons] at hloop2 ⊢
            rw [tryParseArgsLoop_two (rs.length + 1) a a (splitCRLF T2) hA,
              if_neg (lt_irrefl _), hloop2]
            show some (a :: (r :: rs),
              (36 :: natDigitsB a.length).length + 2 + a.length + 2 +
                (encodeBody (r :: rs)).length) =
              some (a :: r :: rs, (encodeBody (a :: r :: rs)).length)
            congr 1
            rw [Prod.mk.injEq]
            refine ⟨rfl, ?_⟩
            have hLen : (encodeBody (a :: r :: rs)).length =
                (encodeArg a).length + (encodeBody (r :: rs)).length := by
              show (encodeArg a ++ encodeBody (r :: rs)).length = _
              simp
            rw [hLen, encodeArg_length]
            simp only [List.length_cons]
            omega

/-- Dropping the final CRLF of a frame still parses successfully, reporting
the full frame length as consumed (two bytes more than the buffer holds). -/
lemma tryParse_dropCRLF (args : List (List Nat))
    (hn : args.length < U64)
    (hwf : ∀ a ∈ args, a.length < U64 ∧ ∀ b ∈ a, b ≠ 13) :
    tryParse ((encodeFrame args).take ((encodeFrame args).length - 2)) =
      some (args, (encodeFrame args).length) := by
  by_cases hargs : args = []
  · subst hargs
    decide
  obtain ⟨T, hT, hloop⟩ := encodeBody_split args hargs hwf
  have hdig := natDigitsB_spec args.length
  have hDcr : ∀ b ∈ 42 :: natDigitsB args.length, b ≠ 13 := by
    intro b hb
    simp at hb
    rcases hb with hb | hb
    · omega
    · have := hdig.1 b hb
      omega
  have hframe : encodeFrame args =
      ((42 :: natDigitsB args.length) ++ 13 :: 10 :: T) ++ [13, 10] := by
    rw [show encodeFrame args =
      (42 :: natDigitsB args.length) ++ 13 :: 10 :: encodeBody args from by
        simp [encodeFrame]]
    rw [hT]
    simp
  rw [hframe, take_dropEnd2]
  unfold tryParse
  rw [splitCRLF_line _ _ hDcr]
  show (if (42 :: natDigitsB args.length).headD 0 ≠ 42 then none
        else
          match parseUsizeBytes (42 :: natDigitsB args.length).tail with
          | none => none
          | some numArgs =>
              match tryParseArgsLoop numArgs (splitCRLF T) with
              | some (as, c) =>
                  some (as, (42 :: natDigitsB args.length).length + 2 + c)
              | none => none) = _
  rw [if_neg (by simp)]
  simp only [List.tail_cons]
  rw [parseUsizeBytes_digits args.length hn]
  show (match tryParseArgsLoop args.length (splitCRLF T) with
        | some (as, c) =>
            some (as, (42 :: natDigitsB args.length).length + 2 + c)
        | none => none) = _
  rw [hloop]
  show some (args,
    (42 :: natDigitsB args.length).length + 2 + (encodeBody args).length) = _
  congr 1
  rw [Prod.mk.injEq]
  refine ⟨rfl, ?_⟩
  rw [hT]
  simp only [List.length_cons, List.length_append, List.length_nil]
  omega

/-- C2, counterexample: the 9-byte buffer "*1\r\n$1\r\na" is a strict
prefix of the 11-byte complete frame "*1\r\n$1\r\na\r\n" (the final CRLF
is missing), yet try_parse returns a successful parse of ["a"] reporting
11 bytes consumed — more than the buffer holds — instead of indicating an
incomplete frame. -/
theorem c2_tryparse_counterexample :
    (encodeFrame [[97]]).length = 11 ∧
    (encodeFrame [[97]]).take 9 = [42, 49, 13, 10, 36, 49, 13, 10, 97] ∧
    tryParse [42, 49, 13, 10, 36, 49, 13, 10, 97] = some ([[97]], 11) := by
  decide

/-- C2, amended: for every RESP array frame B of CR-free ASCII bulk
strings with in-range lengths (ASCII because from_utf8_lossy re-encodes
invalid UTF-8 payloads, changing the reported byte counts), try_parse of B
followed by any suffix succeeds and reports exactly len(B) bytes consumed;
truncating B by three or more bytes makes try_parse return None
(incomplete); but truncating exactly the final CRLF still parses
successfully, wrongly reporting len(B) bytes consumed, so truncated frames
are not reliably detected. -/
theorem c2_tryparse_amended (args : List (List Nat)) (suffix : List Nat)
    (k : Nat) (hn : args.length < U64)
    (hwf : ∀ a ∈ args, a.length < U64 ∧ ∀ b ∈ a, b < 128 ∧ b ≠ 13) :
    tryParse (encodeFrame args ++ suffix) =
      some (args, (encodeFrame args).length) ∧
    (k + 3 ≤ (encodeFrame args).length →
      tryParse ((encodeFrame args).take k) = none) ∧
    tryParse ((encodeFrame args).take ((encodeFrame args).length - 2)) =
      some (args, (encodeFrame args).length) :=
  have hwf2 : ∀ a ∈ args, a.length < U64 ∧ ∀ b ∈ a, b ≠ 13 :=
    fun a ha => ⟨(hwf a ha).1, fun b hb => ((hwf a ha).2 b hb).2⟩
  ⟨tryParse_encode args suffix hn hwf2,
   fun hk => tryParse_prefix_none args k hn hwf2 hk,
   tryParse_dropCRLF args hn hwf2⟩

/-- Witness for the amended C2 theorem at the frame of ["a"] with suffix
[99] and truncation point 5. -/
theorem c2_tryparse_amended_witness :
    tryParse (encodeFrame [[97]] ++ [99]) =
      some ([[97]], (encodeFrame [[97]]).length) ∧
    tryParse ((encodeFrame [[97]]).take 5) = none ∧
    tryParse ((encodeFrame [[97]]).take ((encodeFrame [[97]]).length - 2)) =
      some ([[97]], (encodeFrame [[97]]).length) := by
  have h := c2_tryparse_amended [[97]] [99] 5 (by decide) (by decide)
  exact ⟨h.1, h.2.1 (by decide), h.2.2⟩

/-! ## C9: skiplist add / remove_entry round trip (skiplist.rs 63-221)

The Arc<RwLock<Node>> graph is embedded as an arena: `nodes` is the list
of all allocated nodes and forward pointers are arena indices; index 0 is
the head sentinel and a node unlinked by remove_entry simply becomes
unreachable from the head, exactly as a dropped Arc.  Scores are f64 in
the source; the embedding takes them in Int (a subrange of the exactly
representable doubles, on which partial_cmp().unwrap() is the total
order used here).  The coin-flip level of SkipList::rand_number is passed
in as the `rolled` parameter.  A returned `none` models a Rust panic
(an out-of-bounds Vec index or the .expect at line 199); the usize
decrement `self.level -= 1` at line 215 is modelled with wraparound
arithmetic modulo 2^64, as in release builds (debug builds panic at that
point instead). -/

def MAX_LEVEL : Nat := 32

structure SLNode where
  member : String
  is_special : Bool
  score : Int
  forwards : List (Option Nat)
deriving Repr, DecidableEq

def SLNode.mk_new (score : Int) (member : String) : SLNode :=
  ⟨member, false, score, List.replicate MAX_LEVEL none⟩

def SLNode.new_dummy : SLNode :=
  ⟨"", true, 0, List.replicate MAX_LEVEL none⟩

structure SkipList where
  nodes : List SLNode
  level : Nat
deriving Repr, DecidableEq

def SkipList.new : SkipList := ⟨[SLNode.new_dummy], 0⟩

/-- skiplist.rs cmp (line 47): score order, ties broken by member. -/
def cmpSL (aScore : Int) (aMember : String) (bScore : Int)
    (bMember : String) : Ordering :=
  if aScore < bScore then .lt
  else if bScore < aScore then .gt
  else compare aMember bMember

def nodeAt (a : List SLNode) (i : Nat) : Option SLNode := a.get? i

/-- cur.read().forwards[lvl]; none models the index-out-of-bounds panic. -/
def readForward (a : List SLNode) (i lvl : Nat) : Option (Option Nat) :=
  match a.get? i with
  | none => none
  | some nd => nd.forwards.get? lvl

/-- node.write().forwards[lvl] = v; none models the index panic. -/
def writeForward (a : List SLNode) (i lvl : Nat) (v : Option Nat) :
    Option (List SLNode) :=
  match a.get? i with
  | none => none
  | some nd =>
      if lvl < nd.forwards.length then
        some (a.set i { nd with forwards := nd.forwards.set lvl v })
      else none

/-- The inner loop of SkipList::add at one level (lines 78-95): advance
cur while the next node compares Less than (score, member). -/
def advanceLt (a : List SLNode) (score : Int) (member : String)
    (lvl : Nat) : Nat → Nat → Option Nat
  | 0, _ => none
  | fuel + 1, cur =>
      match readForward a cur lvl with
      | none => none
      | some none => some cur
      | some (some nxt) =>
          match nodeAt a nxt with
          | none => none
          | some nd =>
              match cmpSL nd.score nd.member score member with
              | .lt => advanceLt a score member lvl fuel nxt
              | _ => some cur

/-- The top-to-bottom traversal of SkipList::add (lines 77-97), filling
the update vector with the predecessor found at each level. -/
def addWalkGo (a : List SLNode) (score : Int) (member : String)
    (fuel : Nat) : List Nat → Nat → List Nat → Option (Nat × List Nat)
  | [], cur, update => some (cur, update)
  | lvl :: rest, cur, update =>
      match advanceLt a score member lvl fuel cur with
      | none => none
      | some cur2 =>
          addWalkGo a score member fuel rest cur2 (update.set lvl cur2)

/-- The linking loop of SkipList::add (lines 109-116): splice the new
node in at levels 0..=rolled. -/
def linkGo (update : List Nat) (newIdx : Nat) :
    List Nat → List SLNode → Option (List SLNode)
  | [], a => some a
  | lvl :: rest, a =>
      match update.get? lvl with
      | none => none
      | some u =>
          match readForward a u lvl with
          | none => none
          | some nxt =>
              match writeForward a newIdx lvl nxt with
              | none => none
              | some a2 =>
                  match writeForward a2 u lvl (some newIdx) with
                  | none => none
                  | some a3 => linkGo update newIdx rest a3

/-- The inner loop of SkipList::remove_entry at one level (lines 168-186):
advance while Less, flag is_found on Equal. -/
def advanceFind (a : List SLNode) (score : Int) (member : String)
    (lvl : Nat) : Nat → Nat → Option (Nat × Bool)
  | 0, _ => none
  | fuel + 1, cur =>
      match readForward a cur lvl with
      | none => none
      | some none => some (cur, false)
      | some (some nxt) =>
          match nodeAt a nxt with
          | none => none
          | some nd =>
              match cmpSL nd.score nd.member score member with
              | .lt => advanceFind a score member lvl fuel nxt
              | .eq => some (cur, true)
              | .gt => some (cur, false)

/-- The top-to-bottom traversal of remove_entry (lines 166-191): the
update slot at a level is set only when the node was found there. -/
def removeWalkGo (a : List SLNode) (score : Int) (member : String)
    (fuel : Nat) :
    List Nat → Nat → List (Option Nat) → Option (List (Option Nat))
  | [], _, update => some update
  | lvl :: rest, cur, update =>
      match advanceFind a score member lvl fuel cur with
      | none => none
      | some (cur2, found) =>
          removeWalkGo a score member fuel rest cur2
            (if found then update.set lvl (some cur2) else update)

/-- The unlink loop of remove_entry (lines 193-218).  The iteration range
0..=self.level is fixed on entry; `level` carries the current value of
self.level, which the body both tests and decrements.  The decrement is
usize wrapping subtraction (debug builds panic when level = 0). -/
def unlinkGo (update : List (Option Nat)) :
    List Nat → List SLNode → Nat → Bool → Option (List SLNode × Nat × Bool)
  | [], a, level, isRemoved => some (a, level, isRemoved)
  | lvl :: rest, a, level, isRemoved =>
      match update.get? lvl with
      | none => none
      | some none => unlinkGo update rest a level isRemoved
      | some (some updateNode) =>
          match readForward a updateNode lvl with
          | none => none
          | some none => none
          | some (some deleteNode) =>
              match readForward a deleteNode lvl with
              | none => none
              | some nextNode =>
                  match writeForward a updateNode lvl nextNode with
                  | none => none
                  | some a2 =>
                      if lvl = level then
                        match readForward a2 0 lvl with
                        | none => none
                        | some hf =>
                            unlinkGo update rest a2
                              (if hf = none then (level + (U64 - 1)) % U64
                               else level) true
                      else unlinkGo update rest a2 level true

/-- skiplist.rs SkipList::remove_entry (lines 161-221). -/
def SkipList.remove_entry (sl : SkipList) (score : Int) (member : String) :
    Option (SkipList × Bool) :=
  match removeWalkGo sl.nodes score member (sl.nodes.length + 1)
      ((List.range (sl.level + 1)).reverse) 0
      (List.replicate MAX_LEVEL none) with
  | none => none
  | some update =>
      match unlinkGo update (List.range (sl.level + 1)) sl.nodes sl.level
          false with
      | none => none
      | some (a2, level2, isRemoved) => some (⟨a2, level2⟩, isRemoved)

/-- The insertion part of SkipList::add (lines 74-117), after the
member-dict lookup: walk, possibly raise the level to the rolled value,
allocate the node, link it in. -/
def SkipList.addRaw (sl : SkipList) (score : Int) (member : String)
    (rolled : Nat) : Option SkipList :=
  match addWalkGo sl.nodes score member (sl.nodes.length + 1)
      ((List.range (sl.level + 1)).reverse) 0
      (List.replicate MAX_LEVEL 0) with
  | none => none
  | some (_, update) =>
      let update2 :=
        if sl.level < rolled then
          (List.range (rolled - sl.level)).foldl
            (fun u i => u.set (sl.level + 1 + i) 0) update
        else update
      let newLevel := if sl.level < rolled then rolled else sl.level
      let newIdx := sl.nodes.length
      match linkGo update2 newIdx (List.range (rolled + 1))
          (sl.nodes ++ [SLNode.mk_new score member]) with
      | none => none
      | some a3 => some ⟨a3, newLevel⟩

/-- skiplist.rs SkipList::add (lines 63-118), including the member-dict
bookkeeping: an existing member is first removed at its old score, the
dict binding is replaced, and is_new reports whether the member was
absent. -/
def SkipList.add (sl : SkipList) (dict : List (String × Int))
    (score : Int) (member : String) (rolled : Nat) :
    Option (SkipList × List (String × Int) × Bool) :=
  match mapGet dict member with
  | some s =>
      match sl.remove_entry s member with
      | none => none
      | some (sl2, _) =>
          match sl2.addRaw score member rolled with
          | none => none
          | some sl3 => some (sl3, mapInsert dict member score, false)
  | none =>
      match sl.addRaw score member rolled with
      | none => none
      | some sl3 => some (sl3, mapInsert dict member score, true)

/-- C9: refuted by the code.  On the empty skiplist (level 0) with an
empty member dict, add(1, "a") with a rolled level of 0 followed by
remove_entry(1, "a") terminates with is_removed = true but leaves
self.level = 2^64 - 1: the final unlink iteration empties the top level
and runs self.level -= 1 on level 0, a usize underflow (panic in debug
builds, wrap to usize::MAX in release).  With a rolled level of 2 the
same round trip ends at level 1 instead of the original 0, because the
unlink loop decrements the level at most once per call.  In both cases
the structure is not identical to the prior state. -/
theorem c9_add_remove_not_identity :
    SkipList.new.level = 0 ∧
    ((SkipList.add SkipList.new [] 1 "a" 0).bind
        (fun r => r.1.remove_entry 1 "a")).map
      (fun r => (r.1.level, r.2)) = some (U64 - 1, true) ∧
    ((SkipList.add SkipList.new [] 1 "a" 2).bind
        (fun r => r.1.remove_entry 1 "a")).map
      (fun r => (r.1.level, r.2)) = some (1, true) ∧
    U64 - 1 ≠ 0 := by
  refine ⟨rfl, ?_, ?_, by decide⟩
  · rfl
  · rfl

end Redis
